import Mathlib

/-!
go-portscanner: a verification development for `portscanner.go`.

The program parses an IPv4 range `"A-B"` and a port list `"80,443,8000-8002"`,
then launches one TCP connection probe per (address, port) pair.

Modelling conventions.

* A Go `string` is a `List Char` (a sequence of code points).  The functions
  modelled here only compare against ASCII characters and white space, so a
  byte of an invalid encoding behaves like any other non-matching character.
* `uint32` values are `Nat` with an explicit `% 2 ^ 32` where the source can
  wrap; `int` values are `Int` (64-bit platform, bounds made explicit in `Atoi`).
* A Go `error` built by `fmt.Errorf` is its message text.
* The library functions `strings.Split`, `strings.TrimSpace`, `strconv.Atoi`,
  `net.ParseIP`, `net.IP.To4` and `net.IP.String` are embedded from the Go
  standard library (the `net/netip` based parser, which rejects leading zeros
  in dotted-quad octets).
-/

namespace PortScanner

/-- A Go string, as its sequence of code points. -/
abbrev GoString := List Char

/-- Outcome of a Go function with an `error` result that may also panic. -/
inductive Result (α : Type) where
  | ok (val : α)
  | error (msg : GoString)
  | panic
  deriving DecidableEq, Repr

/-! ## `strings` -/

/-- Text of a string literal as a Go string. -/
def lit (s : String) : GoString := s.toList

/-- Embedding of `strings.Split(s, sep)` for a one-character separator: the
pieces between consecutive separators; `n` separators give `n + 1` pieces. -/
def Split (sep : Char) : GoString → List GoString
  | [] => [[]]
  | c :: cs =>
    if c = sep then [] :: Split sep cs
    else
      match Split sep cs with
      | [] => [[c]]
      | p :: ps => (c :: p) :: ps

/-- Embedding of `unicode.IsSpace`: the Latin-1 spaces and the code points
with the Unicode `White_Space` property. -/
def isSpace (c : Char) : Bool :=
  let n := c.toNat
  n = 0x09 || n = 0x0A || n = 0x0B || n = 0x0C || n = 0x0D || n = 0x20 ||
  n = 0x85 || n = 0xA0 || n = 0x1680 || (0x2000 ≤ n && n ≤ 0x200A) ||
  n = 0x2028 || n = 0x2029 || n = 0x202F || n = 0x205F || n = 0x3000

/-- Embedding of `strings.TrimSpace`: drop leading and trailing white space. -/
def TrimSpace (s : GoString) : GoString :=
  ((s.dropWhile isSpace).reverse.dropWhile isSpace).reverse

/-! ## `net/netip` and `net` -/

/-- Embedding of the loop of `netip.parseIPv4Fields` over the remaining input:
`prev` is the previous character (`none` at index 0), `val` the octet being
read, `pos` the index of the current field and `digLen` its digit count. -/
def parseIPv4FieldsLoop :
    GoString → Option Char → Nat → Nat → Nat → List Nat → Option (List Nat)
  | [], _, val, pos, _, fields =>
    if pos < 3 then none else some (fields.set 3 val)
  | c :: rest, prev, val, pos, digLen, fields =>
    if '0' ≤ c ∧ c ≤ '9' then
      if digLen = 1 ∧ val = 0 then none
      else
        let val1 := val * 10 + (c.toNat - '0'.toNat)
        if val1 > 255 then none
        else parseIPv4FieldsLoop rest (some c) val1 pos (digLen + 1) fields
    else if c = '.' then
      if prev = none ∨ rest = [] ∨ prev = some '.' then none
      else if pos = 3 then none
      else parseIPv4FieldsLoop rest (some c) 0 (pos + 1) 0 (fields.set pos val)
    else none

/-- Embedding of `netip.parseIPv4Fields` on the substring `s`: the four octets,
or `none` for each of its error returns. -/
def parseIPv4Fields (s : GoString) : Option (List Nat) :=
  parseIPv4FieldsLoop s none 0 0 0 [0, 0, 0, 0]

/-- The 16-byte form (`As16`) of the IPv4 address with the given octets. -/
def v4InV6 (fields : List Nat) : List Nat :=
  [0, 0, 0, 0, 0, 0, 0, 0, 0, 0, 0xff, 0xff] ++ fields

/-- Embedding of `netip.parseIPv4` followed by `As16`; an IPv4 address has no
zone. -/
def parseIPv4 (s : GoString) : Option (List Nat × GoString) :=
  match parseIPv4Fields s with
  | none => none
  | some fields => some (v4InV6 fields, [])

/-- Value of a hexadecimal digit, `none` for any other character. -/
def hexVal (c : Char) : Option Nat :=
  if '0' ≤ c ∧ c ≤ '9' then some (c.toNat - '0'.toNat)
  else if 'a' ≤ c ∧ c ≤ 'f' then some (c.toNat - 'a'.toNat + 10)
  else if 'A' ≤ c ∧ c ≤ 'F' then some (c.toNat - 'A'.toNat + 10)
  else none

/-- Embedding of the inner hex loop of `netip.parseIPv6`: reads hex digits from
the front of the input; returns the count `off`, the value `acc` and the rest of
the input, or `none` when a group has more than four digits or overflows. -/
def parseHexGroup : GoString → Nat → Nat → Option (Nat × Nat × GoString)
  | [], off, acc => some (off, acc, [])
  | c :: rest, off, acc =>
    match hexVal c with
    | none => some (off, acc, c :: rest)
    | some d =>
      let acc1 := ((acc <<< 4) + d) % 2 ^ 32
      if off > 3 then none
      else if acc1 > 0xffff then none
      else parseHexGroup rest (off + 1) acc1

/-- Embedding of the main loop `for i < 16` of `netip.parseIPv6`.  Every
iteration raises `i` by at least 2, so 8 iterations always suffice; `fuel`
counts the remaining iterations, and running out of it is the exit of the loop
at `i = 16` (`parseIPv6Loop_fuel`: more fuel changes nothing).  Returns the
rest of the input, `i`, the position of the ellipsis and the bytes. -/
def parseIPv6Loop :
    Nat → GoString → Nat → Option Nat → List Nat →
      Option (GoString × Nat × Option Nat × List Nat)
  | 0, s, i, ellipsis, ip => some (s, i, ellipsis, ip)
  | fuel + 1, s, i, ellipsis, ip =>
    if ¬ i < 16 then some (s, i, ellipsis, ip)
    else
      match parseHexGroup s 0 0 with
      | none => none
      | some (off, acc, rest) =>
        if off = 0 then none
        else
          match rest with
          | '.' :: _ =>
            if ellipsis = none ∧ i ≠ 12 then none
            else if i + 4 > 16 then none
            else
              match parseIPv4Fields s with
              | none => none
              | some fields =>
                some ([], i + 4, ellipsis,
                  (((ip.set i (fields.getD 0 0)).set (i + 1) (fields.getD 1 0)).set
                    (i + 2) (fields.getD 2 0)).set (i + 3) (fields.getD 3 0))
          | _ =>
            let ip1 := (ip.set i ((acc >>> 8) % 256)).set (i + 1) (acc % 256)
            let i1 := i + 2
            match rest with
            | [] => some ([], i1, ellipsis, ip1)
            | c :: s1 =>
              if c ≠ ':' then none
              else
                match s1 with
                | [] => none
                | ':' :: s2 =>
                  if ellipsis ≠ none then none
                  else
                    match s2 with
                    | [] => some ([], i1, some i1, ip1)
                    | _ => parseIPv6Loop fuel s2 i1 (some i1) ip1
                | _ => parseIPv6Loop fuel s1 i1 ellipsis ip1

/-- Embedding of `netip.parseIPv6`: the 16 bytes and the zone. -/
def parseIPv6 (input : GoString) : Option (List Nat × GoString) :=
  let s0 := input.takeWhile (· ≠ '%')
  let hasZone := input.contains '%'
  let zone := (input.dropWhile (· ≠ '%')).drop 1
  if hasZone ∧ zone = [] then none
  else
    let unspecified := List.replicate 16 0
    let start : Option (GoString × Option Nat) :=
      match s0 with
      | ':' :: ':' :: s1 => if s1 = [] then none else some (s1, some 0)
      | _ => some (s0, none)
    match start with
    | none => some (unspecified, zone)
    | some (s, ellipsis0) =>
      match parseIPv6Loop 8 s 0 ellipsis0 unspecified with
      | none => none
      | some (rest, i, ellipsis, ip) =>
        if rest ≠ [] then none
        else if i < 16 then
          match ellipsis with
          | none => none
          | some e =>
            some (ip.take e ++ List.replicate (16 - i) 0 ++ (ip.drop e).take (i - e), zone)
        else if ellipsis ≠ none then none
        else some (ip, zone)

/-- Embedding of the scan of `netip.ParseAddr`: the first of `.`, `:` and `%`
decides how the whole string `s` is parsed. -/
def ParseAddrScan (s : GoString) : GoString → Option (List Nat × GoString)
  | [] => none
  | c :: rest =>
    if c = '.' then parseIPv4 s
    else if c = ':' then parseIPv6 s
    else if c = '%' then none
    else ParseAddrScan s rest

/-- Embedding of `netip.ParseAddr`, giving the 16-byte form and the zone. -/
def ParseAddr (s : GoString) : Option (List Nat × GoString) :=
  ParseAddrScan s s

/-- Embedding of `net.ParseIP`: the 16-byte slice, or `none` for `nil`; an
address with a zone is rejected. -/
def ParseIP (s : GoString) : Option (List Nat) :=
  match ParseAddr s with
  | none => none
  | some (ip, zone) => if zone ≠ [] then none else some ip

/-- Embedding of `net.IP.To4`: the 4-byte form of an IPv4 address, and the
empty (nil) slice for anything else. -/
def To4 (ip : List Nat) : List Nat :=
  if ip.length = 4 then ip
  else if ip.length = 16 ∧ (ip.take 10).all (· = 0) ∧ ip.getD 10 0 = 0xff ∧
      ip.getD 11 0 = 0xff then
    ip.drop 12
  else []

/-! ## `strconv` and `fmt` -/

/-- Whether the character is an ASCII decimal digit. -/
def isDecDigit (c : Char) : Bool := decide ('0' ≤ c) && decide (c ≤ '9')

/-- Value of a run of decimal digits read left to right, as the loops of
`strconv.Atoi` and `strconv.ParseUint` accumulate it. -/
def digitsValue (s : GoString) : Nat :=
  s.foldl (fun n ch => n * 10 + (ch.toNat - '0'.toNat)) 0

/-- Embedding of `strconv.Atoi` on a 64-bit platform: an optional sign followed
by one or more decimal digits, with a value that fits `int`; `none` stands for
a non-nil error (syntax or range). -/
def Atoi (s : GoString) : Option Int :=
  let neg := s.head? = some '-'
  let body := if s.head? = some '-' ∨ s.head? = some '+' then s.drop 1 else s
  if body = [] then none
  else if ¬ body.all isDecDigit then none
  else
    let un := digitsValue body
    if neg then (if un > 2 ^ 63 then none else some (-(un : Int)))
    else (if un ≥ 2 ^ 63 then none else some (un : Int))

/-- Decimal text of a natural number. -/
def fmtNat (n : Nat) : GoString := (Nat.repr n).toList

/-- Embedding of the `%d` verb of `fmt` for an `int`. -/
def fmtInt (n : Int) : GoString :=
  if n < 0 then '-' :: fmtNat n.natAbs else fmtNat n.natAbs

/-! ## The program -/

/-- Embedding of the body of the loop of `parsePortList` for one token: the
ports it appends, or the error it returns. -/
def parsePortPart (portPart : GoString) : Result (List Int) :=
  match Split '-' portPart with
  | [p0] =>
    match Atoi p0 with
    | none => .error (lit "Invalid port number: " ++ p0)
    | some portNum =>
      if portNum < 1 ∨ portNum > 65535 then
        .error (lit "Port number out of range: " ++ fmtInt portNum)
      else .ok [portNum]
  | [p0, p1] =>
    match Atoi p0 with
    | none => .error (lit "Invalid start port number: " ++ p0)
    | some startPortNum =>
      match Atoi p1 with
      | none => .error (lit "Invalid end port number: " ++ p1)
      | some endPortNum =>
        if startPortNum < 1 ∨ startPortNum > 65535 then
          .error (lit "Start port number out of range: " ++ fmtInt startPortNum)
        else if endPortNum < 1 ∨ endPortNum > 65535 then
          .error (lit "End port number out of range: " ++ fmtInt endPortNum)
        else if startPortNum > endPortNum then
          .error (lit "Start port number cannot be greater than end port number")
        else
          .ok (List.map (fun (k : Nat) => startPortNum + (k : Int))
            (List.range (endPortNum - startPortNum + 1).toNat))
  | _ => .error (lit "Invalid port range: " ++ portPart)

/-- Embedding of the loop `for _, portPart := range portParts` of
`parsePortList`, with `ports` the slice built so far. -/
def parsePortListLoop : List GoString → List Int → Result (List Int)
  | [], ports => .ok ports
  | portPart :: rest, ports =>
    match parsePortPart portPart with
    | .ok ps => parsePortListLoop rest (ports ++ ps)
    | .error msg => .error msg
    | .panic => .panic

/-- Embedding of `parsePortList`. -/
def parsePortList (portList : GoString) : Result (List Int) :=
  if portList = [] then .error (lit "Port list must be specified")
  else parsePortListLoop (Split ',' portList) []

/-- Embedding of `intToIPString`: `net.IPv4(...).String()` prints the four
bytes of the address in decimal, separated by dots. -/
def intToIPString (ip : Nat) : GoString :=
  fmtNat ((ip >>> 24) % 256) ++ '.' :: fmtNat ((ip >>> 16) % 256) ++
    '.' :: fmtNat ((ip >>> 8) % 256) ++ '.' :: fmtNat (ip % 256)

/-- Embedding of `ipToInt`: `none` is the index-out-of-range panic raised when
`To4` returned the nil slice. -/
def ipToInt (ip : List Nat) : Option Nat :=
  match To4 ip with
  | [b0, b1, b2, b3] =>
    some ((((b0 % 2 ^ 32) <<< 24) % 2 ^ 32 ||| ((b1 % 2 ^ 32) <<< 16) % 2 ^ 32 |||
      ((b2 % 2 ^ 32) <<< 8) % 2 ^ 32 ||| (b3 % 2 ^ 32)))
  | _ => none

/-- Embedding of `parseIPRange`. -/
def parseIPRange (ipRange : GoString) : Result (Nat × Nat) :=
  if ipRange = [] then .error (lit "IP range must be specified")
  else
    match Split '-' ipRange with
    | [part0, part1] =>
      match ParseIP (TrimSpace part0) with
      | none => .error (lit "Invalid start IP address: " ++ part0)
      | some startIP =>
        match ParseIP (TrimSpace part1) with
        | none => .error (lit "Invalid end IP address: " ++ part1)
        | some endIP =>
          match ipToInt startIP with
          | none => .panic
          | some startIPInt =>
            match ipToInt endIP with
            | none => .panic
            | some endIPInt =>
              if startIPInt > endIPInt then
                .error (lit "Start IP address cannot be greater than end IP address")
              else .ok (startIPInt, endIPInt)
    | _ => .error (lit "Invalid IP range: " ++ ipRange)

/-- A probe goroutine, identified by the arguments it was started with: the
text of the address and the port. -/
abbrev Probe := GoString × Int

/-- Where the main goroutine stands: at the test of the outer loop, inside the
inner loop (with the ports still to visit), blocked in `wg.Wait()`, returned,
or crashed by a panic. -/
inductive MainPc where
  | outer
  | inner (ipStr : GoString) (rest : List Int)
  | waiting
  | returned
  | crashed
  deriving DecidableEq, Repr

/-- State of a run of `main`: the locals of the main goroutine, the counter of
the wait group, the probe goroutines still running, the lines written to
standard output, and (history) every probe launched and every probe finished,
in order. -/
structure State where
  pc : MainPc
  ip : Nat
  ipEnd : Nat
  portList : List Int
  wg : Int
  running : List Probe
  stdout : List GoString
  launched : List Probe
  finished : List Probe
  deriving DecidableEq, Repr

/-- State of `main` once it has returned or crashed before the loops, having
printed `out`. -/
def State.halted (pc : MainPc) (out : List GoString) : State :=
  ⟨pc, 0, 0, [], 0, [], out, [], []⟩

/-- Embedding of lines 12-39 of `main`: both arguments are parsed; an error is
printed with `fmt.Println` and `main` returns; otherwise the outer loop starts
at `ipStart`. -/
def start (ipRange ports : GoString) : State :=
  match parseIPRange ipRange with
  | .error msg => State.halted .returned [msg]
  | .panic => State.halted .crashed []
  | .ok (ipStart, ipEnd) =>
    match parsePortList ports with
    | .error msg => State.halted .returned [msg]
    | .panic => State.halted .crashed []
    | .ok portList => ⟨.outer, ipStart, ipEnd, portList, 0, [], [], [], []⟩

/-- Embedding of one step of the main goroutine in lines 42-64 of `main`: the
test `ip <= ipEnd`, one iteration of the inner loop (`wg.Add(1)` and the `go`
statement), the increment `ip++` in `uint32`, and `wg.Wait()`, which only
passes when the counter is zero.  `none` when the main goroutine cannot move. -/
def mainStep (st : State) : Option State :=
  match st.pc with
  | .outer =>
    if st.ip ≤ st.ipEnd then some { st with pc := .inner (intToIPString st.ip) st.portList }
    else some { st with pc := .waiting }
  | .inner ipStr (port :: rest) =>
    some { st with
      pc := .inner ipStr rest
      wg := st.wg + 1
      running := st.running ++ [(ipStr, port)]
      launched := st.launched ++ [(ipStr, port)] }
  | .inner _ [] => some { st with pc := .outer, ip := (st.ip + 1) % 2 ^ 32 }
  | .waiting => if st.wg = 0 then some { st with pc := .returned } else none
  | .returned => none
  | .crashed => none

/-- The line a probe prints for an open port: `"Port %d is open on %s\n"`. -/
def openLine (p : Probe) : GoString :=
  lit "Port " ++ fmtInt p.2 ++ lit " is open on " ++ p.1

/-- The address string a probe dials: `fmt.Sprintf("%s:%d", ip, port)`. -/
def dialAddress (p : Probe) : GoString := p.1 ++ ':' :: fmtInt p.2

/-- Embedding of the body of a probe goroutine, run to completion by the
`i`-th running probe: `dial` tells whether `net.DialTimeout` succeeds for an
address string; on an error nothing is printed, otherwise one line; in both
cases the deferred `wg.Done()` runs.  No goroutine runs once `main` has
returned or crashed. -/
def probeStep (dial : GoString → Bool) (i : Nat) (st : State) : Option State :=
  if st.pc = .returned ∨ st.pc = .crashed then none
  else
    match st.running.get? i with
    | none => none
    | some p =>
      some { st with
        wg := st.wg - 1
        running := st.running.eraseIdx i
        stdout := if dial (dialAddress p) then st.stdout ++ [openLine p] else st.stdout
        finished := st.finished ++ [p] }

/-- One step of the program: the main goroutine or one of the probes moves. -/
def Step (dial : GoString → Bool) (st st1 : State) : Prop :=
  mainStep st = some st1 ∨ ∃ i, probeStep dial i st = some st1

/-- The states a run can reach from `st`, under any interleaving. -/
inductive Reachable (dial : GoString → Bool) (st : State) : State → Prop where
  | refl : Reachable dial st st
  | step {a b : State} : Reachable dial st a → Step dial a b → Reachable dial st b

/-- The main goroutine alone, run for at most `n` steps. -/
def mainSteps : Nat → State → State
  | 0, st => st
  | n + 1, st =>
    match mainStep st with
    | none => st
    | some st1 => mainSteps n st1

/-! ## Notions used to state the properties -/

/-- The dotted-quad text `a0.a1.a2.a3` of four octets, each in decimal without
leading zeros. -/
def dottedQuad (a0 a1 a2 a3 : Nat) : GoString :=
  fmtNat a0 ++ '.' :: (fmtNat a1 ++ '.' :: (fmtNat a2 ++ '.' :: fmtNat a3))

/-- The 32-bit value of the address `x0.x1.x2.x3`, first octet in bits 31..24. -/
def pack (x0 x1 x2 x3 : Nat) : Nat :=
  x0 * 2 ^ 24 + x1 * 2 ^ 16 + x2 * 2 ^ 8 + x3

/-- Whether a character can occur in a dotted quad: a decimal digit or a dot. -/
def isQuadChar (c : Char) : Bool := isDecDigit c || c = '.'

/-- The pieces joined with a one-character separator, as `strings.Join`. -/
def joinWith (sep : Char) : List GoString → GoString
  | [] => []
  | [x] => x
  | x :: y :: rest => x ++ sep :: joinWith sep (y :: rest)

/-- A token of a port list: a single port, or a range `s-e`. -/
inductive PortToken where
  | single (p : Nat)
  | range (s e : Nat)
  deriving DecidableEq, Repr

/-- A valid token: a port in `[1, 65535]`, or a range with
`1 ≤ s ≤ e ≤ 65535`. -/
def PortToken.Valid : PortToken → Prop
  | .single p => 1 ≤ p ∧ p ≤ 65535
  | .range s e => 1 ≤ s ∧ s ≤ e ∧ e ≤ 65535

/-- The text of a token, numbers in decimal. -/
def PortToken.text : PortToken → GoString
  | .single p => fmtNat p
  | .range s e => fmtNat s ++ '-' :: fmtNat e

/-- The ports a token stands for: `[p]`, or `[s, s+1, ..., e]`. -/
def PortToken.expand : PortToken → List Int
  | .single p => [(p : Int)]
  | .range s e => List.map (fun (k : Nat) => (k : Int)) (List.range' s (e - s + 1))

/-- The text of a port list: its tokens joined by commas. -/
def portListText (toks : List PortToken) : GoString :=
  joinWith ',' (toks.map PortToken.text)

/-- The pairs of the Cartesian product of the addresses `ipStart, ..., ipEnd`
(ascending) with the ports (in list order), as the probes they stand for. -/
def productProbes (ipStart ipEnd : Nat) (ports : List Int) : List Probe :=
  ((List.range' ipStart (ipEnd + 1 - ipStart)).map
    (fun ip => ports.map (fun port => (intToIPString ip, port)))).flatten

/-- Whether the message begins with the given text. -/
def startsWith (p msg : GoString) : Bool := p.isPrefixOf msg

/-- The error taxonomy of the specification (section 7). -/
inductive ErrorKind where
  | InvalidInput
  | InvalidFormat
  | InvalidAddress
  | InvalidPort
  | RangeOrderError
  deriving DecidableEq, Repr

/-- The kind the specification gives to an error, read off the message the
program built for it. -/
def errorKind (msg : GoString) : Option ErrorKind :=
  if msg = lit "IP range must be specified" ∨ msg = lit "Port list must be specified" then
    some .InvalidInput
  else if startsWith (lit "Invalid IP range: ") msg ∨
      startsWith (lit "Invalid port range: ") msg then
    some .InvalidFormat
  else if startsWith (lit "Invalid start IP address: ") msg ∨
      startsWith (lit "Invalid end IP address: ") msg then
    some .InvalidAddress
  else if startsWith (lit "Invalid port number: ") msg ∨
      startsWith (lit "Port number out of range: ") msg ∨
      startsWith (lit "Invalid start port number: ") msg ∨
      startsWith (lit "Invalid end port number: ") msg ∨
      startsWith (lit "Start port number out of range: ") msg ∨
      startsWith (lit "End port number out of range: ") msg then
    some .InvalidPort
  else if msg = lit "Start IP address cannot be greater than end IP address" ∨
      msg = lit "Start port number cannot be greater than end port number" then
    some .RangeOrderError
  else none

/-- A port number text that `parsePortList` rejects as `InvalidPort`: not a
parseable integer, or an integer outside `[1, 65535]`. -/
def BadPortNumber (x : GoString) : Prop :=
  Atoi x = none ∨ ∃ v, Atoi x = some v ∧ (v < 1 ∨ v > 65535)

/-- A token with an invalid port: a single part that is a bad port number, or
two parts one of which is. -/
def InvalidPortToken (t : GoString) : Prop :=
  (∃ x, Split '-' t = [x] ∧ BadPortNumber x) ∨
    (∃ x y, Split '-' t = [x, y] ∧ (BadPortNumber x ∨ BadPortNumber y))

/-- A token that `parsePortList` accepts. -/
def AcceptedToken (t : GoString) : Prop := ∃ ps, parsePortPart t = .ok ps

/-- The main goroutine is inside the dispatch loops (lines 42-61). -/
def InLoops (st : State) : Prop :=
  st.pc = .outer ∨ ∃ ipStr rest, st.pc = .inner ipStr rest

/-- Whether the connection of a probe succeeds, for the outcome function
`dial` on address strings. -/
def connects (dial : GoString → Bool) (p : Probe) : Bool := dial (dialAddress p)

/-- What holds of every state of a run that got past the parsers: the lines
printed are those of the finished probes that connected, in order; every
launched probe is finished or running; the counter of the wait group is the
number of running probes; and once `main` has returned none is running. -/
def RunInvariant (dial : GoString → Bool) (st : State) : Prop :=
  st.stdout = (st.finished.filter (connects dial)).map openLine ∧
    (st.finished ++ st.running).Perm st.launched ∧
    st.wg = (st.running.length : Int) ∧
    (st.pc = .returned → st.running = [])

/-- A valid IPv4 dotted quad: four octets in `[0, 255]`, each in decimal
without leading zeros, separated by dots. -/
def IsDottedQuad (s : GoString) : Prop :=
  ∃ a0 a1 a2 a3, a0 < 256 ∧ a1 < 256 ∧ a2 < 256 ∧ a3 < 256 ∧ s = dottedQuad a0 a1 a2 a3

/-- An IPv6 literal that `net.ParseIP` accepts. -/
def IsIPv6Literal (s : GoString) : Prop :=
  ':' ∈ s ∧ ∃ ip, ParseIP s = some ip

/-- Neither a valid dotted quad nor an accepted IPv6 literal. -/
def NotAnAddress (s : GoString) : Prop := ¬ IsDottedQuad s ∧ ¬ IsIPv6Literal s

/-- A run of the program under a given schedule: `none` lets the main
goroutine move and `some i` the `i`-th running probe; a move that is not
possible is skipped. -/
def runSchedule (dial : GoString → Bool) : List (Option Nat) → State → State
  | [], st => st
  | none :: rest, st =>
    match mainStep st with
    | none => runSchedule dial rest st
    | some st1 => runSchedule dial rest st1
  | some i :: rest, st =>
    match probeStep dial i st with
    | none => runSchedule dial rest st
    | some st1 => runSchedule dial rest st1

/-! ## A finer interleaving, for the wait group

The steps of `mainStep` and `probeStep` take `wg.Add(1)` together with the `go`
statement, and a whole probe at once.  Here every call on the wait group is a
step of its own: the main goroutine stands before `wg.Add(1)` or before the
`go` statement, and a probe goroutine is before `net.DialTimeout`, before
`fmt.Printf`, or before its deferred `wg.Done()`. -/

/-- Where the main goroutine stands in the finer model. -/
inductive FinePc where
  | outer
  | beforeAdd (ipStr : GoString) (rest : List Int)
  | beforeGo (ipStr : GoString) (port : Int) (rest : List Int)
  | waiting
  | returned
  | crashed
  deriving DecidableEq, Repr

/-- Where a probe goroutine stands: before `net.DialTimeout`, before
`fmt.Printf` (the connect succeeded and the connection is closed), or before
the deferred `wg.Done()`. -/
inductive ProbePhase where
  | dialing
  | printing
  | exiting
  deriving DecidableEq, Repr

/-- State of a run in the finer model: the locals of the main goroutine, the
counter of the wait group, the probe goroutines in each phase, those that have
exited, the lines printed, and (history) the number of `wg.Add(1)` and
`wg.Done()` calls made and the probes launched, in order. -/
structure FineState where
  pc : FinePc
  ip : Nat
  ipEnd : Nat
  portList : List Int
  wg : Int
  adds : Nat
  dones : Nat
  dialing : List Probe
  printing : List Probe
  exiting : List Probe
  exited : List Probe
  launched : List Probe
  stdout : List GoString
  deriving DecidableEq, Repr

/-- State of the finer model once `main` has returned or crashed before the
loops, having printed `out`. -/
def FineState.halted (pc : FinePc) (out : List GoString) : FineState :=
  ⟨pc, 0, 0, [], 0, 0, 0, [], [], [], [], [], out⟩

/-- Embedding of lines 12-39 of `main` in the finer model, as `start`. -/
def fineStart (ipRange ports : GoString) : FineState :=
  match parseIPRange ipRange with
  | .error msg => FineState.halted .returned [msg]
  | .panic => FineState.halted .crashed []
  | .ok (ipStart, ipEnd) =>
    match parsePortList ports with
    | .error msg => FineState.halted .returned [msg]
    | .panic => FineState.halted .crashed []
    | .ok portList => ⟨.outer, ipStart, ipEnd, portList, 0, 0, 0, [], [], [], [], [], []⟩

/-- Embedding of one step of the main goroutine in lines 42-64 of `main`, in the
finer model: the test `ip <= ipEnd`; `wg.Add(1)`; the `go` statement, which
starts a probe with the current address text and port; `ip++` in `uint32`;
`wg.Wait()`, which only passes when the counter is zero. -/
def fineMainStep (st : FineState) : Option FineState :=
  match st.pc with
  | .outer =>
    if st.ip ≤ st.ipEnd then
      some { st with pc := .beforeAdd (intToIPString st.ip) st.portList }
    else some { st with pc := .waiting }
  | .beforeAdd ipStr (port :: rest) =>
    some { st with pc := .beforeGo ipStr port rest, wg := st.wg + 1, adds := st.adds + 1 }
  | .beforeAdd _ [] => some { st with pc := .outer, ip := (st.ip + 1) % 2 ^ 32 }
  | .beforeGo ipStr port rest =>
    some { st with
      pc := .beforeAdd ipStr rest
      dialing := st.dialing ++ [(ipStr, port)]
      launched := st.launched ++ [(ipStr, port)] }
  | .waiting => if st.wg = 0 then some { st with pc := .returned } else none
  | .returned => none
  | .crashed => none

/-- Embedding of one step of a probe goroutine (lines 47-59), taken by the
`i`-th goroutine of the given phase: `net.DialTimeout` fails (the goroutine
returns, its deferred call still to run) or succeeds; `fmt.Printf` prints the
line; the deferred `wg.Done()` runs and the goroutine is gone.  No goroutine
runs once `main` has returned or crashed. -/
def fineProbeStep (dial : GoString → Bool) (phase : ProbePhase) (i : Nat) (st : FineState) :
    Option FineState :=
  if st.pc = .returned ∨ st.pc = .crashed then none
  else
    match phase with
    | .dialing =>
      match st.dialing.get? i with
      | none => none
      | some p =>
        if dial (dialAddress p) then
          some { st with dialing := st.dialing.eraseIdx i, printing := st.printing ++ [p] }
        else some { st with dialing := st.dialing.eraseIdx i, exiting := st.exiting ++ [p] }
    | .printing =>
      match st.printing.get? i with
      | none => none
      | some p =>
        some { st with
          printing := st.printing.eraseIdx i
          exiting := st.exiting ++ [p]
          stdout := st.stdout ++ [openLine p] }
    | .exiting =>
      match st.exiting.get? i with
      | none => none
      | some p =>
        some { st with
          exiting := st.exiting.eraseIdx i
          exited := st.exited ++ [p]
          wg := st.wg - 1
          dones := st.dones + 1 }

/-- One step of the program in the finer model. -/
def FineStep (dial : GoString → Bool) (st st1 : FineState) : Prop :=
  fineMainStep st = some st1 ∨ ∃ phase i, fineProbeStep dial phase i st = some st1

/-- The states a run can reach from `st` in the finer model, under any
interleaving. -/
inductive FineReachable (dial : GoString → Bool) (st : FineState) : FineState → Prop where
  | refl : FineReachable dial st st
  | step {a b : FineState} : FineReachable dial st a → FineStep dial a b →
      FineReachable dial st b

/-- A run under a given schedule: `none` lets the main goroutine move, and
`some (phase, i)` the `i`-th probe of that phase; a move that is not possible is
skipped. -/
def fineRun (dial : GoString → Bool) : List (Option (ProbePhase × Nat)) → FineState → FineState
  | [], st => st
  | none :: rest, st =>
    match fineMainStep st with
    | none => fineRun dial rest st
    | some st1 => fineRun dial rest st1
  | some (phase, i) :: rest, st =>
    match fineProbeStep dial phase i st with
    | none => fineRun dial rest st
    | some st1 => fineRun dial rest st1

/-- The `wg.Add(1)` made for a goroutine that the `go` statement has not yet
started: 1 between the two statements, 0 elsewhere. -/
def pendingAdd : FinePc → Nat
  | .beforeGo _ _ _ => 1
  | _ => 0

/-- What holds of every state of a run in the finer model: the counter of the
wait group is the number of probes that have not exited, plus the pending add;
every `wg.Add(1)` but the pending one has its goroutine launched; every
`wg.Done()` is the exit of a goroutine; every launched probe is in one of the
phases or has exited; and once `main` has returned or crashed no probe is
left. -/
def BarrierInvariant (st : FineState) : Prop :=
  st.wg = ((st.dialing.length + st.printing.length + st.exiting.length +
      pendingAdd st.pc : Nat) : Int) ∧
    st.adds = st.launched.length + pendingAdd st.pc ∧
    st.dones = st.exited.length ∧
    ((st.exited : Multiset Probe) + st.dialing + st.printing + st.exiting = st.launched) ∧
    (st.pc = .returned ∨ st.pc = .crashed →
      st.dialing = [] ∧ st.printing = [] ∧ st.exiting = [])

/-! ## Decimal text -/

theorem digitChar_spec (d : Nat) (h : d < 10) :
    isDecDigit (Nat.digitChar d) = true ∧ (Nat.digitChar d).toNat - '0'.toNat = d := by
  interval_cases d <;> decide

theorem toDigitsCore_all (fuel : Nat) : ∀ (n : Nat) (ds : List Char),
    ds.all isDecDigit = true → (Nat.toDigitsCore 10 fuel n ds).all isDecDigit = true := by
  induction fuel with
  | zero => intro n ds h; simpa [Nat.toDigitsCore] using h
  | succ fuel ih =>
    intro n ds h
    have hd := (digitChar_spec (n % 10) (Nat.mod_lt _ (by decide))).1
    have hcons : (Nat.digitChar (n % 10) :: ds).all isDecDigit = true := by
      simp only [List.all_cons, hd, h, Bool.and_self]
    simp only [Nat.toDigitsCore]
    split
    · exact hcons
    · exact ih _ _ hcons

theorem toDigitsCore_value (fuel : Nat) : ∀ (n : Nat) (ds : List Char), n < fuel →
    List.foldl (fun n ch => n * 10 + (ch.toNat - '0'.toNat)) 0 (Nat.toDigitsCore 10 fuel n ds) =
      List.foldl (fun n ch => n * 10 + (ch.toNat - '0'.toNat)) n ds := by
  induction fuel with
  | zero => intro n ds h; omega
  | succ fuel ih =>
    intro n ds h
    have hd := (digitChar_spec (n % 10) (Nat.mod_lt _ (by decide))).2
    simp only [Nat.toDigitsCore]
    split
    · rename_i h0
      have hn : n % 10 = n := Nat.mod_eq_of_lt (by omega)
      rw [hn] at hd
      simp only [List.foldl_cons, hn, hd, Nat.zero_mul, Nat.zero_add]
    · rename_i h0
      rw [ih (n / 10) _ (by omega)]
      simp only [List.foldl_cons, hd]
      congr 1
      omega

theorem fmtNat_eq (n : Nat) : fmtNat n = Nat.toDigits 10 n := rfl

theorem fmtNat_all_digits (n : Nat) : (fmtNat n).all isDecDigit = true := by
  rw [fmtNat_eq]
  exact toDigitsCore_all _ _ _ rfl

theorem digitsValue_fmtNat (n : Nat) : digitsValue (fmtNat n) = n := by
  rw [fmtNat_eq]
  unfold digitsValue Nat.toDigits
  rw [toDigitsCore_value _ _ _ (Nat.lt_succ_self n)]
  rfl

theorem toDigitsCore_ne_nil (fuel n : Nat) (ds : List Char) (h : n < fuel) :
    Nat.toDigitsCore 10 fuel n ds ≠ [] := by
  induction fuel generalizing n ds with
  | zero => omega
  | succ fuel ih =>
    simp only [Nat.toDigitsCore]
    split
    · simp
    · exact ih _ _ (by omega)

theorem fmtNat_ne_nil (n : Nat) : fmtNat n ≠ [] := by
  rw [fmtNat_eq]
  exact toDigitsCore_ne_nil _ _ _ (Nat.lt_succ_self n)
set_option maxHeartbeats 4000000 in
set_option maxRecDepth 100000 in
theorem octet_then_dot (a : Nat) (ha : a < 256) (rest : GoString) (hrest : rest ≠ [])
    (prev : Option Char) (pos : Nat) (hpos : pos < 3) (fields : List Nat) :
    parseIPv4FieldsLoop (fmtNat a ++ '.' :: rest) prev 0 pos 0 fields =
      parseIPv4FieldsLoop rest (some '.') 0 (pos + 1) 0 (fields.set pos a) := by
  obtain ⟨r, rs, rfl⟩ := List.exists_cons_of_ne_nil hrest
  interval_cases pos <;> interval_cases a <;> rfl
set_option maxHeartbeats 4000000 in
set_option maxRecDepth 100000 in
theorem octet_last (a : Nat) (ha : a < 256) (prev : Option Char) (fields : List Nat) :
    parseIPv4FieldsLoop (fmtNat a) prev 0 3 0 fields = some (fields.set 3 a) := by
  interval_cases a <;> rfl

theorem parseIPv4Fields_dottedQuad (a0 a1 a2 a3 : Nat)
    (h0 : a0 < 256) (h1 : a1 < 256) (h2 : a2 < 256) (h3 : a3 < 256) :
    parseIPv4Fields (dottedQuad a0 a1 a2 a3) = some [a0, a1, a2, a3] := by
  unfold parseIPv4Fields dottedQuad
  rw [octet_then_dot a0 h0 _ (by simp) none 0 (by decide),
    octet_then_dot a1 h1 _ (by simp) _ 1 (by decide),
    octet_then_dot a2 h2 _ (by simp [fmtNat_ne_nil]) _ 2 (by decide),
    octet_last a3 h3]
  rfl

theorem isDecDigit_iff (c : Char) : isDecDigit c = true ↔ 48 ≤ c.toNat ∧ c.toNat ≤ 57 := by
  simp only [isDecDigit, Bool.and_eq_true, decide_eq_true_eq, Char.le_def]
  rfl

theorem isDecDigit_not_space (c : Char) (h : isDecDigit c = true) : isSpace c = false := by
  rw [isDecDigit_iff] at h
  simp only [isSpace, Bool.or_eq_false_iff, decide_eq_false_iff_not, Bool.and_eq_false_imp,
    decide_eq_true_eq]
  omega

theorem isDecDigit_ne (c d : Char) (h : isDecDigit c = true)
    (hd : d.toNat < 48 ∨ 57 < d.toNat) : c ≠ d := by
  rw [isDecDigit_iff] at h
  rintro rfl
  omega

/-! ## `Split` and `TrimSpace` -/

theorem Split_ne_nil (sep : Char) (s : GoString) : Split sep s ≠ [] := by
  induction s with
  | nil => simp [Split]
  | cons c cs ih =>
    unfold Split
    split
    · simp
    · split <;> simp

theorem Split_of_not_mem (sep : Char) (s : GoString) (h : sep ∉ s) : Split sep s = [s] := by
  induction s with
  | nil => rfl
  | cons c cs ih =>
    have hc : c ≠ sep := fun e => h (by simp [e])
    have hcs : sep ∉ cs := fun e => h (by simp [e])
    simp [Split, hc, ih hcs]

theorem Split_append_sep (sep : Char) (a b : GoString) (h : sep ∉ a) :
    Split sep (a ++ sep :: b) = a :: Split sep b := by
  induction a with
  | nil => simp [Split]
  | cons c cs ih =>
    have hc : c ≠ sep := fun e => h (by simp [e])
    have hcs : sep ∉ cs := fun e => h (by simp [e])
    simp [Split, hc, ih hcs]

theorem TrimSpace_eq_self (s : GoString)
    (hh : ∀ c, s.head? = some c → isSpace c = false)
    (hl : ∀ c, s.getLast? = some c → isSpace c = false) : TrimSpace s = s := by
  unfold TrimSpace
  have h1 : s.dropWhile isSpace = s := by
    cases s with
    | nil => rfl
    | cons c cs => simp [List.dropWhile, hh c rfl]
  rw [h1]
  have h2 : s.reverse.dropWhile isSpace = s.reverse := by
    cases hr : s.reverse with
    | nil => rfl
    | cons c cs =>
      have : s.getLast? = some c := by
        rw [List.getLast?_eq_head?_reverse, hr]; rfl
      simp [List.dropWhile, hl c this]
  rw [h2, List.reverse_reverse]

theorem dottedQuad_all (a0 a1 a2 a3 : Nat) : (dottedQuad a0 a1 a2 a3).all isQuadChar = true := by
  have h : ∀ n, (fmtNat n).all isQuadChar = true := by
    intro n
    have := fmtNat_all_digits n
    simp only [List.all_eq_true] at this ⊢
    intro c hc
    simp [isQuadChar, this c hc]
  simp only [dottedQuad, List.all_append, List.all_cons, h, Bool.true_and, Bool.and_true]
  decide

theorem isQuadChar_not_space (c : Char) (h : isQuadChar c = true) : isSpace c = false := by
  simp only [isQuadChar, Bool.or_eq_true, decide_eq_true_eq] at h
  rcases h with h | rfl
  · exact isDecDigit_not_space c h
  · decide

theorem isQuadChar_ne_dash (c : Char) (h : isQuadChar c = true) : c ≠ '-' := by
  rintro rfl
  exact absurd h (by decide)

theorem dash_not_mem_dottedQuad (a0 a1 a2 a3 : Nat) : '-' ∉ dottedQuad a0 a1 a2 a3 := by
  intro hm
  have := dottedQuad_all a0 a1 a2 a3
  rw [List.all_eq_true] at this
  exact isQuadChar_ne_dash _ (this _ hm) rfl

theorem TrimSpace_dottedQuad (a0 a1 a2 a3 : Nat) :
    TrimSpace (dottedQuad a0 a1 a2 a3) = dottedQuad a0 a1 a2 a3 := by
  have hall := dottedQuad_all a0 a1 a2 a3
  rw [List.all_eq_true] at hall
  apply TrimSpace_eq_self
  · intro c hc
    exact isQuadChar_not_space c (hall c (List.mem_of_mem_head? hc))
  · intro c hc
    exact isQuadChar_not_space c (hall c (List.mem_of_mem_getLast? hc))

theorem ParseAddrScan_digits_dot (s pre rest : GoString) (h : pre.all isDecDigit = true) :
    ParseAddrScan s (pre ++ '.' :: rest) = parseIPv4 s := by
  induction pre with
  | nil => simp [ParseAddrScan]
  | cons c cs ih =>
    simp only [List.all_cons, Bool.and_eq_true] at h
    have h1 : c ≠ '.' := isDecDigit_ne c _ h.1 (by decide)
    have h2 : c ≠ ':' := isDecDigit_ne c _ h.1 (by decide)
    have h3 : c ≠ '%' := isDecDigit_ne c _ h.1 (by decide)
    simp [ParseAddrScan, h1, h2, h3, ih h.2]

theorem ParseIP_dottedQuad (a0 a1 a2 a3 : Nat)
    (h0 : a0 < 256) (h1 : a1 < 256) (h2 : a2 < 256) (h3 : a3 < 256) :
    ParseIP (dottedQuad a0 a1 a2 a3) = some (v4InV6 [a0, a1, a2, a3]) := by
  have hs : ParseAddr (dottedQuad a0 a1 a2 a3) = parseIPv4 (dottedQuad a0 a1 a2 a3) := by
    unfold ParseAddr
    conv => lhs; arg 2; unfold dottedQuad
    exact ParseAddrScan_digits_dot _ _ _ (fmtNat_all_digits a0)
  simp [ParseIP, hs, parseIPv4, parseIPv4Fields_dottedQuad a0 a1 a2 a3 h0 h1 h2 h3]

theorem pack_lt (a0 a1 a2 a3 : Nat)
    (h0 : a0 < 256) (h1 : a1 < 256) (h2 : a2 < 256) (h3 : a3 < 256) :
    pack a0 a1 a2 a3 < 2 ^ 32 := by
  unfold pack; omega

theorem ipToInt_v4InV6 (a0 a1 a2 a3 : Nat)
    (h0 : a0 < 256) (h1 : a1 < 256) (h2 : a2 < 256) (h3 : a3 < 256) :
    ipToInt (v4InV6 [a0, a1, a2, a3]) = some (pack a0 a1 a2 a3) := by
  have e0 : a0 % 2 ^ 32 = a0 := Nat.mod_eq_of_lt (by omega)
  have e1 : a1 % 2 ^ 32 = a1 := Nat.mod_eq_of_lt (by omega)
  have e2 : a2 % 2 ^ 32 = a2 := Nat.mod_eq_of_lt (by omega)
  have e3 : a3 % 2 ^ 32 = a3 := Nat.mod_eq_of_lt (by omega)
  have s0 : (a0 <<< 24) % 2 ^ 32 = a0 <<< 24 := by
    rw [Nat.shiftLeft_eq]; exact Nat.mod_eq_of_lt (by omega)
  have s1 : (a1 <<< 16) % 2 ^ 32 = a1 <<< 16 := by
    rw [Nat.shiftLeft_eq]; exact Nat.mod_eq_of_lt (by omega)
  have s2 : (a2 <<< 8) % 2 ^ 32 = a2 <<< 8 := by
    rw [Nat.shiftLeft_eq]; exact Nat.mod_eq_of_lt (by omega)
  have hto : To4 (v4InV6 [a0, a1, a2, a3]) = [a0, a1, a2, a3] := by
    simp [To4, v4InV6]
  unfold ipToInt
  rw [hto]
  simp only [e0, e1, e2, e3, s0, s1, s2]
  refine congrArg some ?_
  have k2 : a2 <<< 8 ||| a3 = a2 * 2 ^ 8 + a3 := by
    rw [Nat.shiftLeft_eq, Nat.mul_comm a2, ← Nat.mul_add_lt_is_or (by omega)]
  have k1 : a1 <<< 16 ||| (a2 * 2 ^ 8 + a3) = a1 * 2 ^ 16 + (a2 * 2 ^ 8 + a3) := by
    rw [Nat.shiftLeft_eq, Nat.mul_comm a1, ← Nat.mul_add_lt_is_or (by omega)]
  have k0 : a0 <<< 24 ||| (a1 * 2 ^ 16 + (a2 * 2 ^ 8 + a3)) =
      a0 * 2 ^ 24 + (a1 * 2 ^ 16 + (a2 * 2 ^ 8 + a3)) := by
    rw [Nat.shiftLeft_eq, Nat.mul_comm a0, ← Nat.mul_add_lt_is_or (by omega)]
  rw [Nat.lor_assoc, Nat.lor_assoc, k2, k1, k0]
  unfold pack; omega

theorem parseIPRange_dottedQuads (a0 a1 a2 a3 b0 b1 b2 b3 : Nat)
    (ha0 : a0 < 256) (ha1 : a1 < 256) (ha2 : a2 < 256) (ha3 : a3 < 256)
    (hb0 : b0 < 256) (hb1 : b1 < 256) (hb2 : b2 < 256) (hb3 : b3 < 256) :
    parseIPRange (dottedQuad a0 a1 a2 a3 ++ '-' :: dottedQuad b0 b1 b2 b3) =
      if pack a0 a1 a2 a3 > pack b0 b1 b2 b3 then
        .error (lit "Start IP address cannot be greater than end IP address")
      else .ok (pack a0 a1 a2 a3, pack b0 b1 b2 b3) := by
  have hsplit : Split '-' (dottedQuad a0 a1 a2 a3 ++ '-' :: dottedQuad b0 b1 b2 b3) =
      [dottedQuad a0 a1 a2 a3, dottedQuad b0 b1 b2 b3] := by
    rw [Split_append_sep _ _ _ (dash_not_mem_dottedQuad a0 a1 a2 a3),
      Split_of_not_mem _ _ (dash_not_mem_dottedQuad b0 b1 b2 b3)]
  unfold parseIPRange
  rw [if_neg (by simp), hsplit]
  simp only [TrimSpace_dottedQuad, ParseIP_dottedQuad _ _ _ _ ha0 ha1 ha2 ha3,
    ParseIP_dottedQuad _ _ _ _ hb0 hb1 hb2 hb3, ipToInt_v4InV6 _ _ _ _ ha0 ha1 ha2 ha3,
    ipToInt_v4InV6 _ _ _ _ hb0 hb1 hb2 hb3]
/-! ## Port tokens -/

theorem fmtNat_head_digit (n : Nat) : ∃ c cs, fmtNat n = c :: cs ∧ isDecDigit c = true := by
  obtain ⟨c, cs, h⟩ := List.exists_cons_of_ne_nil (fmtNat_ne_nil n)
  refine ⟨c, cs, h, ?_⟩
  have := fmtNat_all_digits n
  rw [h] at this
  simp only [List.all_cons, Bool.and_eq_true] at this
  exact this.1

theorem Atoi_fmtNat (n : Nat) (h : n < 2 ^ 63) : Atoi (fmtNat n) = some (n : Int) := by
  obtain ⟨c, cs, hc, hd⟩ := fmtNat_head_digit n
  have h1 : c ≠ '-' := isDecDigit_ne c _ hd (by decide)
  have h2 : c ≠ '+' := isDecDigit_ne c _ hd (by decide)
  have hall := fmtNat_all_digits n
  have hval := digitsValue_fmtNat n
  rw [hc] at hall hval
  unfold Atoi
  rw [hc]
  simp only [List.head?_cons, Option.some.injEq, h1, h2, or_self, if_false, hall, hval]
  simp
  omega

theorem not_mem_fmtNat (n : Nat) (d : Char) (hd : d.toNat < 48 ∨ 57 < d.toNat) :
    d ∉ fmtNat n := by
  intro hm
  have := fmtNat_all_digits n
  rw [List.all_eq_true] at this
  exact isDecDigit_ne d d (this d hm) hd rfl

theorem range_map_eq (s e : Nat) (h : s ≤ e) :
    List.map (fun (k : Nat) => (s : Int) + (k : Int))
        (List.range (((e : Int) - (s : Int) + 1).toNat)) =
      List.map (fun (k : Nat) => (k : Int)) (List.range' s (e - s + 1)) := by
  have hn : ((e : Int) - (s : Int) + 1).toNat = e - s + 1 := by omega
  rw [hn]
  apply List.ext_getElem
  · simp
  · intro i h1 h2
    simp [List.getElem_range']

theorem parsePortPart_text (t : PortToken) (h : t.Valid) :
    parsePortPart t.text = .ok t.expand := by
  cases t with
  | single p =>
    obtain ⟨h1, h2⟩ := h
    have hs : Split '-' (fmtNat p) = [fmtNat p] :=
      Split_of_not_mem _ _ (not_mem_fmtNat p '-' (by decide))
    simp only [parsePortPart, PortToken.text, PortToken.expand, hs, Atoi_fmtNat p (by omega)]
    rw [if_neg (by omega)]
  | range s e =>
    obtain ⟨h1, h2, h3⟩ := h
    have hs : Split '-' (fmtNat s ++ '-' :: fmtNat e) = [fmtNat s, fmtNat e] := by
      rw [Split_append_sep _ _ _ (not_mem_fmtNat s '-' (by decide)),
        Split_of_not_mem _ _ (not_mem_fmtNat e '-' (by decide))]
    simp only [parsePortPart, PortToken.text, PortToken.expand, hs, Atoi_fmtNat s (by omega),
      Atoi_fmtNat e (by omega)]
    rw [if_neg (by omega), if_neg (by omega), if_neg (by omega), range_map_eq s e h2]

theorem parsePortListLoop_ok (parts : List GoString) (f : GoString → List Int)
    (h : ∀ p ∈ parts, parsePortPart p = .ok (f p)) (acc : List Int) :
    parsePortListLoop parts acc = .ok (acc ++ (parts.map f).flatten) := by
  induction parts generalizing acc with
  | nil => simp [parsePortListLoop]
  | cons p ps ih =>
    have hp := h p (by simp)
    simp only [parsePortListLoop, hp]
    rw [ih (fun q hq => h q (by simp [hq]))]
    simp

theorem parsePortListLoop_error (pre post : List GoString) (t : GoString) (msg : GoString)
    (hpre : ∀ p ∈ pre, ∃ ps, parsePortPart p = .ok ps) (ht : parsePortPart t = .error msg)
    (acc : List Int) : parsePortListLoop (pre ++ t :: post) acc = .error msg := by
  induction pre generalizing acc with
  | nil => simp [parsePortListLoop, ht]
  | cons p ps ih =>
    obtain ⟨l, hl⟩ := hpre p (by simp)
    simp only [List.cons_append, parsePortListLoop, hl]
    exact ih (fun q hq => hpre q (by simp [hq])) _

theorem Split_joinWith (sep : Char) (parts : List GoString) (hne : parts ≠ [])
    (h : ∀ p ∈ parts, sep ∉ p) : Split sep (joinWith sep parts) = parts := by
  induction parts with
  | nil => exact absurd rfl hne
  | cons x xs ih =>
    cases xs with
    | nil => simpa [joinWith] using Split_of_not_mem sep x (h x (by simp))
    | cons y ys =>
      simp only [joinWith]
      rw [Split_append_sep sep _ _ (h x (by simp)), ih (by simp) (fun p hp => h p (by simp [hp]))]

theorem joinWith_ne_nil (sep : Char) (parts : List GoString) (hne : parts ≠ [])
    (h : ∀ p ∈ parts, p ≠ []) : joinWith sep parts ≠ [] := by
  cases parts with
  | nil => exact absurd rfl hne
  | cons x xs =>
    cases xs with
    | nil => simpa [joinWith] using h x (by simp)
    | cons y ys => simp [joinWith]

theorem PortToken.comma_not_mem_text (t : PortToken) : ',' ∉ t.text := by
  cases t with
  | single p => exact not_mem_fmtNat p ',' (by decide)
  | range s e =>
    simp only [PortToken.text, List.mem_append, List.mem_cons, not_or]
    exact ⟨not_mem_fmtNat s ',' (by decide), by decide, not_mem_fmtNat e ',' (by decide)⟩

theorem PortToken.text_ne_nil (t : PortToken) : t.text ≠ [] := by
  cases t with
  | single p => exact fmtNat_ne_nil p
  | range s e => simp [PortToken.text]

theorem parsePortListLoop_tokens (toks : List PortToken) (acc : List Int)
    (hv : ∀ t ∈ toks, t.Valid) :
    parsePortListLoop (toks.map PortToken.text) acc =
      .ok (acc ++ (toks.map PortToken.expand).flatten) := by
  induction toks generalizing acc with
  | nil => simp [parsePortListLoop]
  | cons t ts ih =>
    simp only [List.map_cons, parsePortListLoop, parsePortPart_text t (hv t (by simp))]
    rw [ih _ (fun u hu => hv u (by simp [hu]))]
    simp

theorem Split_portListText (toks : List PortToken) (hne : toks ≠ []) :
    Split ',' (portListText toks) = toks.map PortToken.text :=
  Split_joinWith ',' _ (by simpa using hne) (by
    intro p hp
    obtain ⟨t, _, rfl⟩ := List.mem_map.1 hp
    exact t.comma_not_mem_text)

/-! ## Error kinds of the port parser -/

theorem errorKind_invalidPort (x : GoString) :
    errorKind (lit "Invalid port number: " ++ x) = some .InvalidPort := by
  simp [errorKind, startsWith, lit]

theorem errorKind_portOutOfRange (x : GoString) :
    errorKind (lit "Port number out of range: " ++ x) = some .InvalidPort := by
  simp [errorKind, startsWith, lit]

theorem errorKind_invalidStartPort (x : GoString) :
    errorKind (lit "Invalid start port number: " ++ x) = some .InvalidPort := by
  simp [errorKind, startsWith, lit]

theorem errorKind_invalidEndPort (x : GoString) :
    errorKind (lit "Invalid end port number: " ++ x) = some .InvalidPort := by
  simp [errorKind, startsWith, lit]

theorem errorKind_startPortOutOfRange (x : GoString) :
    errorKind (lit "Start port number out of range: " ++ x) = some .InvalidPort := by
  simp [errorKind, startsWith, lit]

theorem errorKind_endPortOutOfRange (x : GoString) :
    errorKind (lit "End port number out of range: " ++ x) = some .InvalidPort := by
  simp [errorKind, startsWith, lit]

theorem parsePortPart_invalidPort (t : GoString) (h : InvalidPortToken t) :
    ∃ msg, parsePortPart t = .error msg ∧ errorKind msg = some .InvalidPort := by
  rcases h with ⟨x, hs, hx⟩ | ⟨x, y, hs, hxy⟩
  · rcases hx with hx | ⟨v, hv, hr⟩
    · exact ⟨_, by simp only [parsePortPart, hs, hx], errorKind_invalidPort x⟩
    · refine ⟨_, ?_, errorKind_portOutOfRange (fmtInt v)⟩
      simp only [parsePortPart, hs, hv]
      rw [if_pos hr]
  · cases hax : Atoi x with
    | none => exact ⟨_, by simp only [parsePortPart, hs, hax], errorKind_invalidStartPort x⟩
    | some a =>
      cases hay : Atoi y with
      | none => exact ⟨_, by simp only [parsePortPart, hs, hax, hay], errorKind_invalidEndPort y⟩
      | some b =>
        by_cases hra : a < 1 ∨ a > 65535
        · refine ⟨_, ?_, errorKind_startPortOutOfRange (fmtInt a)⟩
          simp only [parsePortPart, hs, hax, hay]
          rw [if_pos hra]
        · have hrb : b < 1 ∨ b > 65535 := by
            rcases hxy with hx | hy
            · rcases hx with hx | ⟨v, hv, hr⟩
              · rw [hax] at hx; exact absurd hx (by simp)
              · rw [hax] at hv; cases hv; exact absurd hr hra
            · rcases hy with hy | ⟨v, hv, hr⟩
              · rw [hay] at hy; exact absurd hy (by simp)
              · rw [hay] at hv; cases hv; exact hr
          refine ⟨_, ?_, errorKind_endPortOutOfRange (fmtInt b)⟩
          simp only [parsePortPart, hs, hax, hay]
          rw [if_neg hra, if_pos hrb]

theorem parsePortList_first_error (s : GoString) (pre post : List GoString) (t msg : GoString)
    (hne : s ≠ []) (hs : Split ',' s = pre ++ t :: post) (hpre : ∀ u ∈ pre, AcceptedToken u)
    (ht : parsePortPart t = .error msg) : parsePortList s = .error msg := by
  unfold parsePortList
  rw [if_neg hne, hs]
  exact parsePortListLoop_error pre post t msg hpre ht []
/-! ## The dispatch loops of `main` -/

theorem mainSteps_add (m n : Nat) (st : State) :
    mainSteps (m + n) st = mainSteps n (mainSteps m st) := by
  induction m generalizing st with
  | zero => simp [mainSteps]
  | succ m ih =>
    rw [Nat.succ_add]
    simp only [mainSteps]
    cases h : mainStep st with
    | none =>
      simp only
      clear ih
      induction n with
      | zero => rfl
      | succ n _ => simp [mainSteps, h]
    | some st1 => exact ih st1

theorem mainSteps_inner (ipStr : GoString) (rest : List Int) (st : State)
    (hpc : st.pc = .inner ipStr rest) :
    mainSteps rest.length st =
      { st with
        pc := .inner ipStr []
        wg := st.wg + rest.length
        running := st.running ++ rest.map (fun port => (ipStr, port))
        launched := st.launched ++ rest.map (fun port => (ipStr, port)) } := by
  induction rest generalizing st with
  | nil =>
    cases st
    simp only at hpc
    simp [mainSteps, hpc]
  | cons port rest ih =>
    have hstep : mainStep st = some { st with
        pc := .inner ipStr rest
        wg := st.wg + 1
        running := st.running ++ [(ipStr, port)]
        launched := st.launched ++ [(ipStr, port)] } := by
      simp only [mainStep, hpc]
    simp only [List.length_cons, mainSteps, hstep]
    rw [ih _ rfl]
    simp only [List.map_cons, List.append_assoc, List.singleton_append, Nat.cast_add,
      Nat.cast_one, State.mk.injEq, and_true, true_and]
    omega

theorem mainSteps_succ_of (n : Nat) (st st1 : State) (h : mainStep st = some st1) :
    mainSteps (n + 1) st = mainSteps n st1 := by
  simp only [mainSteps, h]

theorem mainSteps_address (st : State) (hpc : st.pc = .outer) (hle : st.ip ≤ st.ipEnd) :
    mainSteps (st.portList.length + 2) st =
      { st with
        ip := (st.ip + 1) % 2 ^ 32
        wg := st.wg + st.portList.length
        running := st.running ++ st.portList.map (fun port => (intToIPString st.ip, port))
        launched := st.launched ++ st.portList.map (fun port => (intToIPString st.ip, port)) } := by
  have h1 : mainStep st = some { st with pc := .inner (intToIPString st.ip) st.portList } := by
    simp only [mainStep, hpc, hle, if_true]
  rw [mainSteps_succ_of _ _ _ h1, mainSteps_add,
    mainSteps_inner (intToIPString st.ip) st.portList _ rfl]
  cases st
  simp only at hpc
  simp [mainSteps, mainStep, hpc]

theorem productProbes_cons (ip ipEnd : Nat) (ports : List Int) (hle : ip ≤ ipEnd) :
    productProbes ip ipEnd ports =
      ports.map (fun port => (intToIPString ip, port)) ++ productProbes (ip + 1) ipEnd ports := by
  unfold productProbes
  have h : ipEnd + 1 - ip = (ipEnd + 1 - (ip + 1)) + 1 := by omega
  rw [h, List.range'_succ]
  simp

theorem productProbes_length (ip ipEnd : Nat) (ports : List Int) :
    (productProbes ip ipEnd ports).length = (ipEnd + 1 - ip) * ports.length := by
  unfold productProbes
  generalize ipEnd + 1 - ip = k
  induction k generalizing ip with
  | zero => simp
  | succ k ih =>
    rw [List.range'_succ]
    simp only [List.map_cons, List.flatten_cons, List.length_append, List.length_map, ih]
    ring

theorem mainSteps_loop (k : Nat) : ∀ (st : State), st.pc = .outer → st.ipEnd < 2 ^ 32 - 1 →
    st.ipEnd + 1 - st.ip = k → st.ip ≤ st.ipEnd + 1 →
    mainSteps (k * (st.portList.length + 2) + 1) st =
      { st with
        pc := .waiting
        ip := st.ipEnd + 1
        wg := st.wg + (productProbes st.ip st.ipEnd st.portList).length
        running := st.running ++ productProbes st.ip st.ipEnd st.portList
        launched := st.launched ++ productProbes st.ip st.ipEnd st.portList } := by
  induction k with
  | zero =>
    intro st hpc _ hk hip
    have hgt : ¬ st.ip ≤ st.ipEnd := by omega
    have hip2 : st.ip = st.ipEnd + 1 := by omega
    have hp : productProbes st.ip st.ipEnd st.portList = [] := by
      unfold productProbes; rw [hk]; rfl
    have hstep : mainStep st = some { st with pc := .waiting } := by
      simp only [mainStep, hpc, hgt, if_false]
    rw [Nat.zero_mul, Nat.zero_add, mainSteps_succ_of _ _ _ hstep, hp, ← hip2]
    simp [mainSteps]
  | succ k ih =>
    intro st hpc hend hk hip
    have hle : st.ip ≤ st.ipEnd := by omega
    have hmod : (st.ip + 1) % 2 ^ 32 = st.ip + 1 := Nat.mod_eq_of_lt (by omega)
    have hih := ih { st with
        ip := st.ip + 1
        wg := st.wg + st.portList.length
        running := st.running ++ st.portList.map (fun port => (intToIPString st.ip, port))
        launched := st.launched ++ st.portList.map (fun port => (intToIPString st.ip, port)) }
      hpc hend (by simp only; omega) (by simp only; omega)
    simp only at hih
    rw [show (k + 1) * (st.portList.length + 2) + 1 =
      (st.portList.length + 2) + (k * (st.portList.length + 2) + 1) by ring, mainSteps_add,
      mainSteps_address st hpc hle, hmod, hih]
    simp only [productProbes_cons st.ip st.ipEnd st.portList hle, List.append_assoc,
      List.length_append, List.length_map, Nat.cast_add, State.mk.injEq, and_true, true_and]
    omega
theorem dispatch_cartesian (ipStart ipEnd : Nat) (ports : List Int) (h1 : ipStart ≤ ipEnd)
    (h2 : ipEnd < 2 ^ 32 - 1) :
    mainSteps ((ipEnd + 1 - ipStart) * (ports.length + 2) + 1)
        ⟨.outer, ipStart, ipEnd, ports, 0, [], [], [], []⟩ =
      ⟨.waiting, ipEnd + 1, ipEnd, ports, (productProbes ipStart ipEnd ports).length,
        productProbes ipStart ipEnd ports, [], productProbes ipStart ipEnd ports, []⟩ := by
  have h := mainSteps_loop (ipEnd + 1 - ipStart) ⟨.outer, ipStart, ipEnd, ports, 0, [], [], [], []⟩
    rfl h2 rfl (by simp only; omega)
  simp only at h
  rw [h]
  simp

theorem mainStep_inLoops (st st1 : State) (h : mainStep st = some st1) (hl : InLoops st)
    (hend : st.ipEnd = 2 ^ 32 - 1) (hip : st.ip < 2 ^ 32) :
    InLoops st1 ∧ st1.ipEnd = 2 ^ 32 - 1 ∧ st1.ip < 2 ^ 32 := by
  rcases hl with hpc | ⟨ipStr, rest, hpc⟩
  · have hle : st.ip ≤ st.ipEnd := by omega
    simp only [mainStep, hpc, hle, if_true, Option.some.injEq] at h
    subst h
    exact ⟨Or.inr ⟨_, _, rfl⟩, hend, hip⟩
  · cases rest with
    | nil =>
      simp only [mainStep, hpc, Option.some.injEq] at h
      subst h
      exact ⟨Or.inl rfl, hend, Nat.mod_lt _ (by decide)⟩
    | cons port rest =>
      simp only [mainStep, hpc, Option.some.injEq] at h
      subst h
      exact ⟨Or.inr ⟨_, _, rfl⟩, hend, hip⟩

theorem mainSteps_inLoops (n : Nat) : ∀ (st : State), InLoops st → st.ipEnd = 2 ^ 32 - 1 →
    st.ip < 2 ^ 32 → InLoops (mainSteps n st) := by
  induction n with
  | zero => intro st hl _ _; exact hl
  | succ n ih =>
    intro st hl hend hip
    simp only [mainSteps]
    cases h : mainStep st with
    | none => exact hl
    | some st1 =>
      obtain ⟨a, b, c⟩ := mainStep_inLoops st st1 h hl hend hip
      exact ih st1 a b c

theorem InLoops.not_waiting (st : State) (h : InLoops st) :
    st.pc ≠ .waiting ∧ st.pc ≠ .returned := by
  rcases h with h | ⟨a, b, h⟩ <;> rw [h] <;> exact ⟨by simp, by simp⟩

/-! ## Probes and output -/

theorem perm_cons_eraseIdx {α : Type} (l : List α) (i : Nat) (p : α) (h : l.get? i = some p) :
    l.Perm (p :: l.eraseIdx i) := by
  induction l generalizing i with
  | nil => simp at h
  | cons x xs ih =>
    cases i with
    | zero =>
      simp only [List.get?_cons_zero, Option.some.injEq] at h
      subst h
      simp
    | succ i =>
      simp only [List.get?_cons_succ] at h
      simp only [List.eraseIdx_cons_succ]
      exact ((ih i h).cons x).trans (List.Perm.swap p x _)

theorem length_eraseIdx_of_get? {α : Type} (l : List α) (i : Nat) (p : α)
    (h : l.get? i = some p) : (l.eraseIdx i).length + 1 = l.length := by
  have := (perm_cons_eraseIdx l i p h).length_eq
  simp only [List.length_cons] at this
  omega

theorem RunInvariant.of_mainStep (dial : GoString → Bool) (st st1 : State)
    (hi : RunInvariant dial st) (h : mainStep st = some st1) : RunInvariant dial st1 := by
  obtain ⟨h1, h2, h3, h4⟩ := hi
  unfold PortScanner.mainStep at h
  split at h
  · split at h <;> (simp only [Option.some.injEq] at h; subst h)
    · exact ⟨h1, h2, h3, by simp⟩
    · exact ⟨h1, h2, h3, by simp⟩
  · simp only [Option.some.injEq] at h
    subst h
    refine ⟨h1, ?_, ?_, by simp⟩
    · simp only [← List.append_assoc]
      exact h2.append_right _
    · simp only [List.length_append, List.length_singleton, Nat.cast_add, Nat.cast_one, h3]
  · simp only [Option.some.injEq] at h
    subst h
    exact ⟨h1, h2, h3, by simp⟩
  · split at h
    · rename_i hwg
      simp only [Option.some.injEq] at h
      subst h
      refine ⟨h1, h2, h3, fun _ => ?_⟩
      simp only at *
      rw [hwg] at h3
      exact List.length_eq_zero.1 (by omega)
    · simp at h
  · simp at h
  · simp at h

theorem RunInvariant.of_probeStep (dial : GoString → Bool) (i : Nat) (st st1 : State)
    (hi : RunInvariant dial st) (h : probeStep dial i st = some st1) :
    RunInvariant dial st1 := by
  obtain ⟨h1, h2, h3, h4⟩ := hi
  unfold PortScanner.probeStep at h
  split at h
  · simp at h
  · rename_i hpc
    split at h
    · simp at h
    · rename_i p hp
      simp only [Option.some.injEq] at h
      subst h
      have hperm := perm_cons_eraseIdx st.running i p hp
      have hlen := length_eraseIdx_of_get? st.running i p hp
      refine ⟨?_, ?_, ?_, ?_⟩
      · simp only [List.filter_append, List.map_append]
        by_cases hd : dial (dialAddress p) = true
        · simp [connects, hd, h1]
        · simp [connects, hd, h1]
      · simp only [List.append_assoc, List.singleton_append]
        exact (List.Perm.append_left _ hperm.symm).trans h2
      · simp only [h3]
        omega
      · intro hret
        exact absurd (Or.inl hret) hpc

theorem RunInvariant.reachable (dial : GoString → Bool) (st0 st : State)
    (hi : RunInvariant dial st0) (h : Reachable dial st0 st) : RunInvariant dial st := by
  induction h with
  | refl => exact hi
  | step _ hs ih =>
    rcases hs with hm | ⟨i, hp⟩
    · exact RunInvariant.of_mainStep dial _ _ ih hm
    · exact RunInvariant.of_probeStep dial i _ _ ih hp

theorem start_ok (ipRange ports : GoString) (ipStart ipEnd : Nat) (portList : List Int)
    (hr : parseIPRange ipRange = .ok (ipStart, ipEnd))
    (hp : parsePortList ports = .ok portList) :
    start ipRange ports = ⟨.outer, ipStart, ipEnd, portList, 0, [], [], [], []⟩ := by
  simp only [start, hr, hp]

theorem start_rangeError (ipRange ports msg : GoString)
    (hr : parseIPRange ipRange = .error msg) :
    start ipRange ports = State.halted .returned [msg] := by
  simp only [start, hr]

theorem start_portError (ipRange ports msg : GoString) (ipStart ipEnd : Nat)
    (hr : parseIPRange ipRange = .ok (ipStart, ipEnd))
    (hp : parsePortList ports = .error msg) :
    start ipRange ports = State.halted .returned [msg] := by
  simp only [start, hr, hp]

theorem reachable_halted (dial : GoString → Bool) (pc : MainPc) (out : List GoString)
    (hpc : pc = .returned ∨ pc = .crashed) (st : State)
    (h : Reachable dial (State.halted pc out) st) : st = State.halted pc out := by
  induction h with
  | refl => rfl
  | step _ hs ih =>
    subst ih
    rcases hs with hm | ⟨i, hp⟩
    · rcases hpc with rfl | rfl <;> simp [State.halted, PortScanner.mainStep] at hm
    · rcases hpc with rfl | rfl <;> simp [State.halted, PortScanner.probeStep] at hp
theorem reachable_mainSteps (dial : GoString → Bool) (n : Nat) : ∀ (st0 st : State),
    Reachable dial st0 st → Reachable dial st0 (mainSteps n st) := by
  induction n with
  | zero => intro st0 st h; exact h
  | succ n ih =>
    intro st0 st h
    simp only [mainSteps]
    cases hm : mainStep st with
    | none => exact h
    | some st1 => exact ih st0 st1 (h.step (Or.inl hm))
/-! ## What `parseIPv4Fields` accepts -/

theorem toDigitsCore_append (fuel : Nat) : ∀ (n : Nat) (ds : List Char), n < fuel →
    Nat.toDigitsCore 10 fuel n ds = Nat.toDigitsCore 10 (n + 1) n [] ++ ds := by
  induction fuel using Nat.strong_induction_on with
  | _ fuel ih =>
    intro n ds hn
    cases fuel with
    | zero => omega
    | succ f =>
      by_cases h0 : n / 10 = 0
      · simp [Nat.toDigitsCore, h0]
      · have hl : Nat.toDigitsCore 10 (f + 1) n ds =
            Nat.toDigitsCore 10 f (n / 10) (Nat.digitChar (n % 10) :: ds) := by
          simp [Nat.toDigitsCore, h0]
        have hr : Nat.toDigitsCore 10 (n + 1) n [] =
            Nat.toDigitsCore 10 n (n / 10) [Nat.digitChar (n % 10)] := by
          simp [Nat.toDigitsCore, h0]
        rw [hl, hr, ih f (Nat.lt_succ_self f) (n / 10) _ (by omega),
          ih n (by omega) (n / 10) _ (by omega)]
        simp

theorem fmtNat_of_lt_ten (n : Nat) (h : n < 10) : fmtNat n = [Nat.digitChar n] := by
  rw [fmtNat_eq]
  have h0 : n / 10 = 0 := by omega
  have hm : n % 10 = n := by omega
  simp [Nat.toDigits, Nat.toDigitsCore, h0, hm]

theorem fmtNat_of_ten_le (n : Nat) (h : 10 ≤ n) :
    fmtNat n = fmtNat (n / 10) ++ [Nat.digitChar (n % 10)] := by
  rw [fmtNat_eq, fmtNat_eq]
  have h0 : n / 10 ≠ 0 := by omega
  have hr : Nat.toDigitsCore 10 (n + 1) n [] =
      Nat.toDigitsCore 10 n (n / 10) [Nat.digitChar (n % 10)] := by
    simp [Nat.toDigitsCore, h0]
  unfold Nat.toDigits
  rw [hr, toDigitsCore_append n (n / 10) _ (by omega)]

theorem digitChar_toNat_sub (c : Char) (h : isDecDigit c = true) :
    Nat.digitChar (c.toNat - 48) = c ∧ c.toNat - 48 < 10 := by
  rw [isDecDigit_iff] at h
  have hc : c = Char.ofNat c.toNat := (Char.ofNat_toNat c).symm
  generalize c.toNat = n at h hc
  obtain ⟨h1, h2⟩ := h
  subst hc
  interval_cases n <;> exact ⟨by decide, by decide⟩
theorem fmtNat_length_of_lt_ten (n : Nat) (h : n < 10) : (fmtNat n).length = 1 := by
  rw [fmtNat_of_lt_ten n h]; rfl

theorem take_set_succ (fields : List Nat) (pos val : Nat) (h : pos < fields.length) :
    (fields.set pos val).take (pos + 1) = fields.take pos ++ [val] := by
  induction fields generalizing pos with
  | nil => simp at h
  | cons x xs ih =>
    cases pos with
    | zero => simp
    | succ pos =>
      simp only [List.length_cons, Nat.add_lt_add_iff_right] at h
      simp [List.set, ih pos h]

theorem set_three (fields : List Nat) (val : Nat) (h : fields.length = 4) :
    fields.set 3 val = fields.take 3 ++ [val] := by
  match fields, h with
  | [a, b, c, d], _ => rfl

theorem parseIPv4FieldsLoop_sound : ∀ (s : GoString) (prev : Option Char)
    (val pos digLen : Nat) (fields out : List Nat) (cur : GoString),
    parseIPv4FieldsLoop s prev val pos digLen fields = some out →
    pos ≤ 3 → fields.length = 4 →
    ((digLen = 0 ∧ cur = [] ∧ val = 0 ∧
        ((prev = none ∧ pos = 0) ∨ (prev = some '.' ∧ s ≠ []))) ∨
      (0 < digLen ∧ cur = fmtNat val ∧ cur.length = digLen ∧ val ≤ 255 ∧
        prev ≠ none ∧ prev ≠ some '.')) →
    ∃ os : List Nat, os.length = 4 - pos ∧ (∀ o ∈ os, o < 256) ∧
      cur ++ s = joinWith '.' (os.map fmtNat) ∧ out = fields.take pos ++ os := by
  intro s
  induction s with
  | nil =>
    intro prev val pos digLen fields out cur h hpos hlen hinv
    simp only [parseIPv4FieldsLoop] at h
    split at h
    · simp at h
    · rename_i h3
      have hp3 : pos = 3 := by omega
      subst hp3
      simp only [Option.some.injEq] at h
      rcases hinv with ⟨_, _, _, hprev⟩ | ⟨_, hcur, _, hval, _, _⟩
      · rcases hprev with ⟨_, h0⟩ | ⟨_, h0⟩
        · omega
        · exact absurd rfl h0
      · refine ⟨[val], rfl, ?_, ?_, ?_⟩
        · intro o ho
          rw [List.mem_singleton] at ho
          omega
        · simp [joinWith, hcur]
        · rw [← h, set_three fields val hlen]
  | cons c rest ih =>
    intro prev val pos digLen fields out cur h hpos hlen hinv
    simp only [parseIPv4FieldsLoop] at h
    split at h
    · rename_i hdig
      have hd : isDecDigit c = true := by simp [isDecDigit, hdig.1, hdig.2]
      obtain ⟨hdc, hdlt⟩ := digitChar_toNat_sub c hd
      have h48 : '0'.toNat = 48 := rfl
      rw [h48] at h
      split at h
      · simp at h
      · rename_i hlead
        split at h
        · simp at h
        · rename_i hle
          have hcne : some c ≠ some '.' := by
            intro he
            exact isDecDigit_ne c '.' hd (by decide) (Option.some.inj he)
          have hnew : 0 < digLen + 1 ∧ cur ++ [c] = fmtNat (val * 10 + (c.toNat - 48)) ∧
              (cur ++ [c]).length = digLen + 1 ∧ val * 10 + (c.toNat - 48) ≤ 255 ∧
              some c ≠ none ∧ some c ≠ some '.' := by
            refine ⟨by omega, ?_, ?_, by omega, by simp, hcne⟩
            · rcases hinv with ⟨_, hcur, hval, _⟩ | ⟨hdl, hcur, hcl, _, _, _⟩
              · subst hcur hval
                rw [Nat.zero_mul, Nat.zero_add, fmtNat_of_lt_ten _ hdlt, hdc]
                rfl
              · have hv1 : 1 ≤ val := by
                  by_contra hv
                  have hv0 : val = 0 := by omega
                  have : cur.length = 1 := by
                    rw [hcur]; exact fmtNat_length_of_lt_ten val (by omega)
                  exact hlead ⟨by omega, hv0⟩
                have e1 : (val * 10 + (c.toNat - 48)) / 10 = val := by omega
                have e2 : (val * 10 + (c.toNat - 48)) % 10 = c.toNat - 48 := by omega
                rw [fmtNat_of_ten_le _ (by omega), e1, e2, hdc, hcur]
            · rcases hinv with ⟨hdl, hcur, _, _⟩ | ⟨_, _, hcl, _, _, _⟩
              · subst hcur; simp [hdl]
              · simp [hcl]
          obtain ⟨os, h1, h2, h3, h4⟩ :=
            ih (some c) _ pos (digLen + 1) fields out (cur ++ [c]) h hpos hlen (Or.inr hnew)
          exact ⟨os, h1, h2, by simpa using h3, h4⟩
    · split at h
      · rename_i hdot
        subst hdot
        split at h
        · simp at h
        · rename_i hchk
          simp only [not_or] at hchk
          obtain ⟨hpn, hrest, hpd⟩ := hchk
          split at h
          · simp at h
          · rename_i hp3
            rcases hinv with ⟨_, _, _, hprev⟩ | ⟨_, hcur, _, hval, _, _⟩
            · rcases hprev with ⟨h0, _⟩ | ⟨h0, _⟩
              · exact absurd h0 hpn
              · exact absurd h0 hpd
            · have hlen2 : (fields.set pos val).length = 4 := by simp [hlen]
              obtain ⟨os, h1, h2, h3, h4⟩ :=
                ih (some '.') 0 (pos + 1) 0 (fields.set pos val) out [] h (by omega) hlen2
                  (Or.inl ⟨rfl, rfl, rfl, Or.inr ⟨rfl, hrest⟩⟩)
              refine ⟨val :: os, by simp only [List.length_cons, h1]; omega, ?_, ?_, ?_⟩
              · intro o ho
                rcases List.mem_cons.1 ho with rfl | ho
                · omega
                · exact h2 o ho
              · obtain ⟨o1, os1, rfl⟩ := List.exists_cons_of_ne_nil
                  (List.ne_nil_of_length_pos (by rw [h1]; omega) : os ≠ [])
                simp only [List.nil_append] at h3
                simp only [List.map_cons, joinWith, hcur, h3]
              · rw [h4, take_set_succ fields pos val (by omega)]
                simp
      · simp at h

theorem parseIPv4Fields_sound (s : GoString) (out : List Nat)
    (h : parseIPv4Fields s = some out) : IsDottedQuad s := by
  obtain ⟨os, h1, h2, h3, _⟩ := parseIPv4FieldsLoop_sound s none 0 0 0 [0, 0, 0, 0] out [] h
    (by omega) rfl (Or.inl ⟨rfl, rfl, rfl, Or.inl ⟨rfl, rfl⟩⟩)
  match os, h1 with
  | [a0, a1, a2, a3], _ =>
    refine ⟨a0, a1, a2, a3, h2 a0 (by simp), h2 a1 (by simp), h2 a2 (by simp), h2 a3 (by simp), ?_⟩
    simpa [joinWith, dottedQuad] using h3

theorem ParseAddrScan_some (s r : GoString) (x : List Nat × GoString)
    (h : ParseAddrScan s r = some x) : parseIPv4 s = some x ∨ ':' ∈ r := by
  induction r with
  | nil => simp [ParseAddrScan] at h
  | cons c cs ih =>
    simp only [ParseAddrScan] at h
    split at h
    · exact Or.inl h
    · split at h
      · rename_i hc
        exact Or.inr (by simp [hc])
      · split at h
        · simp at h
        · rcases ih h with h1 | h1
          · exact Or.inl h1
          · exact Or.inr (List.mem_cons_of_mem _ h1)

theorem ParseIP_some (s : GoString) (ip : List Nat) (h : ParseIP s = some ip) :
    IsDottedQuad s ∨ IsIPv6Literal s := by
  have h0 := h
  unfold ParseIP at h
  split at h
  · simp at h
  · rename_i ip1 zone hpa
    rcases ParseAddrScan_some s s _ hpa with h4 | h6
    · left
      unfold parseIPv4 at h4
      split at h4
      · simp at h4
      · rename_i fields hf
        exact parseIPv4Fields_sound s fields hf
    · exact Or.inr ⟨h6, ip, h0⟩

theorem ParseIP_of_notAnAddress (s : GoString) (h : NotAnAddress s) : ParseIP s = none := by
  cases hp : ParseIP s with
  | none => rfl
  | some ip =>
    rcases ParseIP_some s ip hp with hq | h6
    · exact absurd hq h.1
    · exact absurd h6 h.2

theorem errorKind_invalidStartIP (x : GoString) :
    errorKind (lit "Invalid start IP address: " ++ x) = some .InvalidAddress := by
  simp [errorKind, startsWith, lit]

theorem errorKind_invalidEndIP (x : GoString) :
    errorKind (lit "Invalid end IP address: " ++ x) = some .InvalidAddress := by
  simp [errorKind, startsWith, lit]
theorem IsDottedQuad.parseIP_ne_none (s : GoString) (h : IsDottedQuad s) : ParseIP s ≠ none := by
  obtain ⟨a0, a1, a2, a3, h0, h1, h2, h3, rfl⟩ := h
  rw [ParseIP_dottedQuad a0 a1 a2 a3 h0 h1 h2 h3]
  simp

theorem IsDottedQuad.colon_not_mem (s : GoString) (h : IsDottedQuad s) : ':' ∉ s := by
  obtain ⟨a0, a1, a2, a3, _, _, _, _, rfl⟩ := h
  intro hm
  have := dottedQuad_all a0 a1 a2 a3
  rw [List.all_eq_true] at this
  exact absurd (this _ hm) (by decide)
/-! ## The loop bound of `parseIPv6` -/

theorem parseIPv6Loop_fuel (fuel : Nat) : ∀ (s : GoString) (i : Nat) (ellipsis : Option Nat)
    (ip : List Nat), 16 ≤ i + 2 * fuel →
    parseIPv6Loop (fuel + 1) s i ellipsis ip = parseIPv6Loop fuel s i ellipsis ip := by
  induction fuel with
  | zero =>
    intro s i ellipsis ip h
    have hi : ¬ i < 16 := by omega
    simp [parseIPv6Loop, hi]
  | succ fuel ih =>
    intro s i ellipsis ip h
    rw [parseIPv6Loop, parseIPv6Loop]
    simp only [ih _ (i + 2) _ _ (by omega)]
/-! ## Shape of the results of the parsers -/

theorem Split_length (sep : Char) (s : GoString) :
    (Split sep s).length = s.count sep + 1 := by
  induction s with
  | nil => rfl
  | cons c cs ih =>
    unfold Split
    by_cases hc : c = sep
    · subst hc
      simp [ih]
    · have hne : (c == sep) = false := by simpa using hc
      rw [if_neg hc, List.count_cons, hne]
      cases hsp : Split sep cs with
      | nil => exact absurd hsp (Split_ne_nil sep cs)
      | cons p ps =>
        rw [hsp] at ih
        simpa using ih

theorem errorKind_invalidIPRange (x : GoString) :
    errorKind (lit "Invalid IP range: " ++ x) = some .InvalidFormat := by
  simp [errorKind, startsWith, lit]

theorem errorKind_invalidPortRange (x : GoString) :
    errorKind (lit "Invalid port range: " ++ x) = some .InvalidFormat := by
  simp [errorKind, startsWith, lit]

theorem parseIPRange_error_kind (s msg : GoString) (hne : s ≠ [])
    (h : parseIPRange s = .error msg) :
    errorKind msg = some .InvalidFormat ∨ errorKind msg = some .InvalidAddress ∨
      errorKind msg = some .RangeOrderError := by
  unfold parseIPRange at h
  rw [if_neg hne] at h
  split at h
  · split at h
    · cases h
      exact Or.inr (Or.inl (errorKind_invalidStartIP _))
    · split at h
      · cases h
        exact Or.inr (Or.inl (errorKind_invalidEndIP _))
      · split at h
        · cases h
        · split at h
          · cases h
          · split at h
            · cases h
              exact Or.inr (Or.inr (by decide))
            · cases h
  · cases h
    exact Or.inl (errorKind_invalidIPRange _)

theorem parseIPRange_ok_le (s : GoString) (a b : Nat) (h : parseIPRange s = .ok (a, b)) :
    a ≤ b := by
  unfold parseIPRange at h
  split at h
  · cases h
  · split at h
    · split at h
      · cases h
      · split at h
        · cases h
        · split at h
          · cases h
          · split at h
            · cases h
            · split at h
              · cases h
              · rename_i hle
                cases h
                omega
    · cases h

theorem ipToInt_lt (ip : List Nat) (n : Nat) (h : ipToInt ip = some n) : n < 2 ^ 32 := by
  unfold ipToInt at h
  split at h
  · cases h
    have h32 : 0 < 2 ^ 32 := by decide
    exact Nat.or_lt_two_pow (Nat.or_lt_two_pow (Nat.or_lt_two_pow (Nat.mod_lt _ h32)
      (Nat.mod_lt _ h32)) (Nat.mod_lt _ h32)) (Nat.mod_lt _ h32)
  · cases h

theorem parseIPRange_ok_lt (s : GoString) (a b : Nat) (h : parseIPRange s = .ok (a, b)) :
    a < 2 ^ 32 ∧ b < 2 ^ 32 := by
  unfold parseIPRange at h
  split at h
  · cases h
  · split at h
    · split at h
      · cases h
      · split at h
        · cases h
        · split at h
          · cases h
          · rename_i ha
            split at h
            · cases h
            · rename_i hb
              split at h
              · cases h
              · cases h
                exact ⟨ipToInt_lt _ _ ha, ipToInt_lt _ _ hb⟩
    · cases h

theorem parsePortPart_error_kind (t msg : GoString) (h : parsePortPart t = .error msg) :
    errorKind msg = some .InvalidPort ∨ errorKind msg = some .RangeOrderError ∨
      errorKind msg = some .InvalidFormat := by
  unfold parsePortPart at h
  split at h
  · split at h
    · cases h; exact Or.inl (errorKind_invalidPort _)
    · split at h
      · cases h; exact Or.inl (errorKind_portOutOfRange _)
      · cases h
  · split at h
    · cases h; exact Or.inl (errorKind_invalidStartPort _)
    · split at h
      · cases h; exact Or.inl (errorKind_invalidEndPort _)
      · split at h
        · cases h; exact Or.inl (errorKind_startPortOutOfRange _)
        · split at h
          · cases h; exact Or.inl (errorKind_endPortOutOfRange _)
          · split at h
            · cases h; exact Or.inr (Or.inl (by decide))
            · cases h
  · cases h; exact Or.inr (Or.inr (errorKind_invalidPortRange _))

theorem parsePortPart_ne_panic (t : GoString) : parsePortPart t ≠ .panic := by
  unfold parsePortPart
  intro h
  split at h
  · split at h
    · cases h
    · split at h <;> cases h
  · split at h
    · cases h
    · split at h
      · cases h
      · split at h
        · cases h
        · split at h
          · cases h
          · split at h <;> cases h
  · cases h

theorem parsePortPart_ok_spec (t : GoString) (ps : List Int) (h : parsePortPart t = .ok ps) :
    ps ≠ [] ∧ ∀ p ∈ ps, 1 ≤ p ∧ p ≤ 65535 := by
  unfold parsePortPart at h
  split at h
  · split at h
    · cases h
    · split at h
      · cases h
      · rename_i hr
        cases h
        refine ⟨by simp, ?_⟩
        intro p hp
        rw [List.mem_singleton] at hp
        subst hp
        omega
  · split at h
    · cases h
    · split at h
      · cases h
      · split at h
        · cases h
        · split at h
          · cases h
          · split at h
            · cases h
            · cases h
              refine ⟨?_, ?_⟩
              · intro hnil
                have := congrArg List.length hnil
                simp only [List.length_map, List.length_range, List.length_nil] at this
                omega
              · intro p hp
                obtain ⟨k, hk, rfl⟩ := List.mem_map.1 hp
                rw [List.mem_range] at hk
                omega
  · cases h
theorem parsePortListLoop_ne_panic (parts : List GoString) (acc : List Int) :
    parsePortListLoop parts acc ≠ .panic := by
  induction parts generalizing acc with
  | nil => simp [parsePortListLoop]
  | cons t ts ih =>
    simp only [parsePortListLoop]
    cases ht : parsePortPart t with
    | ok ps => exact ih _
    | error msg => simp
    | panic => exact absurd ht (parsePortPart_ne_panic t)

theorem parsePortListLoop_error_mem (parts : List GoString) (acc : List Int) (msg : GoString)
    (h : parsePortListLoop parts acc = .error msg) :
    ∃ t ∈ parts, parsePortPart t = .error msg := by
  induction parts generalizing acc with
  | nil => simp [parsePortListLoop] at h
  | cons t ts ih =>
    simp only [parsePortListLoop] at h
    cases ht : parsePortPart t with
    | ok ps =>
      rw [ht] at h
      obtain ⟨u, hu, hmsg⟩ := ih _ h
      exact ⟨u, List.mem_cons_of_mem _ hu, hmsg⟩
    | error m =>
      rw [ht] at h
      cases h
      exact ⟨t, by simp, ht⟩
    | panic => exact absurd ht (parsePortPart_ne_panic t)

theorem parsePortListLoop_ok_spec (parts : List GoString) (acc ports : List Int)
    (h : parsePortListLoop parts acc = .ok ports) :
    ∃ rest, ports = acc ++ rest ∧ parts.length ≤ rest.length ∧
      ∀ p ∈ rest, 1 ≤ p ∧ p ≤ 65535 := by
  induction parts generalizing acc with
  | nil =>
    simp only [parsePortListLoop, Result.ok.injEq] at h
    exact ⟨[], by simp [h], by simp, by simp⟩
  | cons t ts ih =>
    simp only [parsePortListLoop] at h
    cases ht : parsePortPart t with
    | ok ps =>
      rw [ht] at h
      obtain ⟨rest, h1, h2, h3⟩ := ih _ h
      obtain ⟨hne, hr⟩ := parsePortPart_ok_spec t ps ht
      refine ⟨ps ++ rest, by rw [h1, List.append_assoc], ?_, ?_⟩
      · have : 0 < ps.length := List.length_pos.2 hne
        simp only [List.length_cons, List.length_append]
        omega
      · intro p hp
        rcases List.mem_append.1 hp with hp | hp
        · exact hr p hp
        · exact h3 p hp
    | error m => rw [ht] at h; cases h
    | panic => rw [ht] at h; cases h

theorem parsePortListLoop_acc (parts : List GoString) (acc : List Int) :
    parsePortListLoop parts acc =
      match parsePortListLoop parts [] with
      | .ok ps => .ok (acc ++ ps)
      | .error msg => .error msg
      | .panic => .panic := by
  induction parts generalizing acc with
  | nil => simp [parsePortListLoop]
  | cons t ts ih =>
    simp only [parsePortListLoop]
    cases ht : parsePortPart t with
    | ok ps =>
      simp only [List.nil_append]
      rw [ih (acc ++ ps), ih ps]
      cases parsePortListLoop ts [] <;> simp
    | error m => rfl
    | panic => rfl

theorem parsePortListLoop_append (xs ys : List GoString) (acc : List Int) :
    parsePortListLoop (xs ++ ys) acc =
      match parsePortListLoop xs acc with
      | .ok ps => parsePortListLoop ys ps
      | .error msg => .error msg
      | .panic => .panic := by
  induction xs generalizing acc with
  | nil => simp [parsePortListLoop]
  | cons t ts ih =>
    simp only [List.cons_append, parsePortListLoop]
    cases ht : parsePortPart t with
    | ok ps => exact ih _
    | error m => rfl
    | panic => rfl

theorem Split_append_any (sep : Char) (x y : GoString) :
    Split sep (x ++ sep :: y) = Split sep x ++ Split sep y := by
  induction x with
  | nil => simp [Split]
  | cons c cs ih =>
    by_cases hc : c = sep
    · subst hc
      simp [Split, ih]
    · cases hsp : Split sep cs with
      | nil => exact absurd hsp (Split_ne_nil sep cs)
      | cons p ps => simp [Split, hc, ih, hsp]
/-! ## Padding with white space, and printing addresses -/

theorem dropWhile_append_of_all (p : Char → Bool) (w l : GoString)
    (hw : ∀ c ∈ w, p c = true) : (w ++ l).dropWhile p = l.dropWhile p := by
  induction w with
  | nil => rfl
  | cons c cs ih =>
    have hc : p c = true := hw c (by simp)
    simp only [List.cons_append, List.dropWhile_cons, hc, if_true]
    exact ih (fun d hd => hw d (by simp [hd]))

theorem dropWhile_of_head (p : Char → Bool) (c : Char) (cs : GoString) (hc : p c = false) :
    (c :: cs).dropWhile p = c :: cs := by
  simp [List.dropWhile_cons, hc]

theorem TrimSpace_pad (w1 w2 s : GoString) (hw1 : ∀ c ∈ w1, isSpace c = true)
    (hw2 : ∀ c ∈ w2, isSpace c = true) (hs : s ≠ [])
    (hh : ∀ c, s.head? = some c → isSpace c = false)
    (hl : ∀ c, s.getLast? = some c → isSpace c = false) :
    TrimSpace (w1 ++ s ++ w2) = s := by
  unfold TrimSpace
  have h1 : (w1 ++ s ++ w2).dropWhile isSpace = s ++ w2 := by
    rw [List.append_assoc, dropWhile_append_of_all isSpace w1 _ hw1]
    obtain ⟨c, cs, rfl⟩ := List.exists_cons_of_ne_nil hs
    exact dropWhile_of_head isSpace c _ (hh c rfl)
  rw [h1, List.reverse_append,
    dropWhile_append_of_all isSpace w2.reverse _ (fun c hc => hw2 c (List.mem_reverse.1 hc))]
  have hr : s.reverse ≠ [] := by simpa using hs
  obtain ⟨c, cs, hcs⟩ := List.exists_cons_of_ne_nil hr
  have hlast : s.getLast? = some c := by
    rw [List.getLast?_eq_head?_reverse, hcs]; rfl
  rw [hcs, dropWhile_of_head isSpace c _ (hl c hlast), ← hcs, List.reverse_reverse]

theorem dottedQuad_ne_nil (a0 a1 a2 a3 : Nat) : dottedQuad a0 a1 a2 a3 ≠ [] := by
  obtain ⟨c, cs, h, _⟩ := fmtNat_head_digit a0
  simp [dottedQuad, h]

theorem TrimSpace_pad_dottedQuad (w1 w2 : GoString) (a0 a1 a2 a3 : Nat)
    (hw1 : ∀ c ∈ w1, isSpace c = true) (hw2 : ∀ c ∈ w2, isSpace c = true) :
    TrimSpace (w1 ++ dottedQuad a0 a1 a2 a3 ++ w2) = dottedQuad a0 a1 a2 a3 := by
  have hall := dottedQuad_all a0 a1 a2 a3
  rw [List.all_eq_true] at hall
  apply TrimSpace_pad w1 w2 _ hw1 hw2 (dottedQuad_ne_nil a0 a1 a2 a3)
  · intro c hc
    exact isQuadChar_not_space c (hall c (List.mem_of_mem_head? hc))
  · intro c hc
    exact isQuadChar_not_space c (hall c (List.mem_of_mem_getLast? hc))

theorem dash_not_mem_pad (w1 w2 : GoString) (a0 a1 a2 a3 : Nat)
    (hw1 : ∀ c ∈ w1, isSpace c = true) (hw2 : ∀ c ∈ w2, isSpace c = true) :
    '-' ∉ w1 ++ dottedQuad a0 a1 a2 a3 ++ w2 := by
  intro hm
  have hdash : isSpace '-' = false := by decide
  rcases List.mem_append.1 hm with hm | hm
  · rcases List.mem_append.1 hm with hm | hm
    · rw [hw1 _ hm] at hdash; cases hdash
    · exact dash_not_mem_dottedQuad a0 a1 a2 a3 hm
  · rw [hw2 _ hm] at hdash; cases hdash

theorem parseIPRange_pad_dottedQuads (w1 w2 w3 w4 : GoString) (a0 a1 a2 a3 b0 b1 b2 b3 : Nat)
    (ha0 : a0 < 256) (ha1 : a1 < 256) (ha2 : a2 < 256) (ha3 : a3 < 256)
    (hb0 : b0 < 256) (hb1 : b1 < 256) (hb2 : b2 < 256) (hb3 : b3 < 256)
    (hw1 : ∀ c ∈ w1, isSpace c = true) (hw2 : ∀ c ∈ w2, isSpace c = true)
    (hw3 : ∀ c ∈ w3, isSpace c = true) (hw4 : ∀ c ∈ w4, isSpace c = true) :
    parseIPRange (w1 ++ dottedQuad a0 a1 a2 a3 ++ w2 ++
        '-' :: (w3 ++ dottedQuad b0 b1 b2 b3 ++ w4)) =
      if pack a0 a1 a2 a3 > pack b0 b1 b2 b3 then
        .error (lit "Start IP address cannot be greater than end IP address")
      else .ok (pack a0 a1 a2 a3, pack b0 b1 b2 b3) := by
  have hsplit : Split '-' (w1 ++ dottedQuad a0 a1 a2 a3 ++ w2 ++
      '-' :: (w3 ++ dottedQuad b0 b1 b2 b3 ++ w4)) =
      [w1 ++ dottedQuad a0 a1 a2 a3 ++ w2, w3 ++ dottedQuad b0 b1 b2 b3 ++ w4] := by
    rw [Split_append_sep _ _ _ (dash_not_mem_pad w1 w2 a0 a1 a2 a3 hw1 hw2),
      Split_of_not_mem _ _ (dash_not_mem_pad w3 w4 b0 b1 b2 b3 hw3 hw4)]
  unfold parseIPRange
  rw [if_neg (by simp), hsplit]
  simp only [TrimSpace_pad_dottedQuad _ _ _ _ _ _ hw1 hw2,
    TrimSpace_pad_dottedQuad _ _ _ _ _ _ hw3 hw4, ParseIP_dottedQuad _ _ _ _ ha0 ha1 ha2 ha3,
    ParseIP_dottedQuad _ _ _ _ hb0 hb1 hb2 hb3, ipToInt_v4InV6 _ _ _ _ ha0 ha1 ha2 ha3,
    ipToInt_v4InV6 _ _ _ _ hb0 hb1 hb2 hb3]

theorem intToIPString_eq_dottedQuad (n : Nat) :
    intToIPString n =
      dottedQuad ((n >>> 24) % 256) ((n >>> 16) % 256) ((n >>> 8) % 256) (n % 256) := by
  simp [intToIPString, dottedQuad]

theorem pack_octets (n : Nat) (h : n < 2 ^ 32) :
    pack ((n >>> 24) % 256) ((n >>> 16) % 256) ((n >>> 8) % 256) (n % 256) = n := by
  simp only [Nat.shiftRight_eq_div_pow, pack]
  omega
/-! ## The barrier in the finer model -/

theorem coe_eraseIdx_add {α : Type} (l : List α) (i : Nat) (p : α) (h : l.get? i = some p) :
    (l : Multiset α) = ((l.eraseIdx i : List α) : Multiset α) + {p} := by
  rw [add_comm, Multiset.singleton_add, Multiset.cons_coe]
  exact Multiset.coe_eq_coe.2 (perm_cons_eraseIdx l i p h)

theorem coe_append_singleton {α : Type} (l : List α) (p : α) :
    ((l ++ [p] : List α) : Multiset α) = (l : Multiset α) + {p} := by
  rw [← Multiset.coe_add]
  rfl

theorem BarrierInvariant.of_fineMainStep (st st1 : FineState) (hi : BarrierInvariant st)
    (h : fineMainStep st = some st1) : BarrierInvariant st1 := by
  obtain ⟨h1, h2, h3, h4, h5⟩ := hi
  unfold BarrierInvariant
  unfold fineMainStep at h
  split at h
  · rename_i hpc
    rw [hpc] at h1 h2
    split at h <;> (simp only [Option.some.injEq] at h; subst h)
    · exact ⟨h1, h2, h3, h4, by simp⟩
    · exact ⟨h1, h2, h3, h4, by simp⟩
  · rename_i hpc
    rw [hpc] at h1 h2
    simp only [Option.some.injEq] at h
    subst h
    simp only [pendingAdd] at h1 h2 ⊢
    refine ⟨?_, ?_, h3, h4, by simp⟩
    · rw [h1]
      push_cast
      ring
    · rw [h2]
  · rename_i hpc
    rw [hpc] at h1 h2
    simp only [Option.some.injEq] at h
    subst h
    exact ⟨h1, h2, h3, h4, by simp⟩
  · rename_i hpc
    rw [hpc] at h1 h2
    simp only [Option.some.injEq] at h
    subst h
    simp only [pendingAdd] at h1 h2 ⊢
    refine ⟨?_, ?_, h3, ?_, by simp⟩
    · rw [h1]
      simp only [List.length_append, List.length_singleton]
      push_cast
      ring
    · rw [h2]
      simp only [List.length_append, List.length_singleton]
    · simp only [coe_append_singleton, ← h4]
      abel
  · rename_i hpc
    rw [hpc] at h1 h2
    split at h
    · rename_i hwg
      simp only [Option.some.injEq] at h
      subst h
      simp only [pendingAdd] at h1 h2 ⊢
      refine ⟨h1, h2, h3, h4, fun _ => ?_⟩
      rw [hwg] at h1
      have hz : st.dialing.length + st.printing.length + st.exiting.length + 0 = 0 := by
        exact_mod_cast h1.symm
      exact ⟨List.length_eq_zero.1 (by omega), List.length_eq_zero.1 (by omega),
        List.length_eq_zero.1 (by omega)⟩
    · simp at h
  · simp at h
  · simp at h

theorem BarrierInvariant.of_fineProbeStep (dial : GoString → Bool) (phase : ProbePhase)
    (i : Nat) (st st1 : FineState) (hi : BarrierInvariant st)
    (h : fineProbeStep dial phase i st = some st1) : BarrierInvariant st1 := by
  obtain ⟨h1, h2, h3, h4, h5⟩ := hi
  unfold BarrierInvariant
  unfold fineProbeStep at h
  split at h
  · simp at h
  · rename_i hpc
    have hend : ∀ (s : FineState), s.pc = st.pc → (s.pc = .returned ∨ s.pc = .crashed →
        s.dialing = [] ∧ s.printing = [] ∧ s.exiting = []) := by
      intro s hs hret
      rw [hs] at hret
      exact absurd hret hpc
    split at h
    · split at h
      · simp at h
      · rename_i p hp
        have hlen := length_eraseIdx_of_get? st.dialing i p hp
        have hco := coe_eraseIdx_add st.dialing i p hp
        split at h <;> (simp only [Option.some.injEq] at h; subst h)
        · refine ⟨?_, h2, h3, ?_, hend _ rfl⟩
          · simp only [h1, List.length_append, List.length_singleton]
            congr 1
            omega
          · simp only [coe_append_singleton, ← h4, hco]
            abel
        · refine ⟨?_, h2, h3, ?_, hend _ rfl⟩
          · simp only [h1, List.length_append, List.length_singleton]
            congr 1
            omega
          · simp only [coe_append_singleton, ← h4, hco]
            abel
    · split at h
      · simp at h
      · rename_i p hp
        have hlen := length_eraseIdx_of_get? st.printing i p hp
        have hco := coe_eraseIdx_add st.printing i p hp
        simp only [Option.some.injEq] at h
        subst h
        refine ⟨?_, h2, h3, ?_, hend _ rfl⟩
        · simp only [h1, List.length_append, List.length_singleton]
          congr 1
          omega
        · simp only [coe_append_singleton, ← h4, hco]
          abel
    · split at h
      · simp at h
      · rename_i p hp
        have hlen := length_eraseIdx_of_get? st.exiting i p hp
        have hco := coe_eraseIdx_add st.exiting i p hp
        simp only [Option.some.injEq] at h
        subst h
        refine ⟨?_, h2, ?_, ?_, hend _ rfl⟩
        · simp only [h1]
          omega
        · simp only [h3, List.length_append, List.length_singleton]
        · simp only [coe_append_singleton, ← h4, hco]
          abel

theorem BarrierInvariant.at_fineStart (ipRange ports : GoString) :
    BarrierInvariant (fineStart ipRange ports) := by
  have hh : ∀ pc out, pendingAdd pc = 0 → BarrierInvariant (FineState.halted pc out) := by
    intro pc out hp
    refine ⟨?_, ?_, rfl, rfl, fun _ => ⟨rfl, rfl, rfl⟩⟩
    · simp [FineState.halted, hp]
    · simp [FineState.halted, hp]
  unfold PortScanner.fineStart
  split
  · exact hh _ _ rfl
  · exact hh _ _ rfl
  · split
    · exact hh _ _ rfl
    · exact hh _ _ rfl
    · exact ⟨rfl, rfl, rfl, rfl, fun _ => ⟨rfl, rfl, rfl⟩⟩

theorem BarrierInvariant.of_fineReachable (dial : GoString → Bool) (st0 st : FineState)
    (hi : BarrierInvariant st0) (h : FineReachable dial st0 st) : BarrierInvariant st := by
  induction h with
  | refl => exact hi
  | step _ hs ih =>
    rcases hs with hm | ⟨phase, i, hp⟩
    · exact BarrierInvariant.of_fineMainStep _ _ ih hm
    · exact BarrierInvariant.of_fineProbeStep dial phase i _ _ ih hp

theorem fineReachable_fineRun (dial : GoString → Bool)
    (sched : List (Option (ProbePhase × Nat))) : ∀ (st0 st : FineState),
    FineReachable dial st0 st → FineReachable dial st0 (fineRun dial sched st) := by
  induction sched with
  | nil => intro st0 st h; exact h
  | cons m rest ih =>
    intro st0 st h
    cases m with
    | none =>
      simp only [fineRun]
      cases hm : fineMainStep st with
      | none => exact ih st0 st h
      | some st1 => exact ih st0 st1 (h.step (Or.inl hm))
    | some pi =>
      obtain ⟨phase, i⟩ := pi
      simp only [fineRun]
      cases hp : fineProbeStep dial phase i st with
      | none => exact ih st0 st h
      | some st1 => exact ih st0 st1 (h.step (Or.inr ⟨phase, i, hp⟩))

/-! ## Probes run to completion -/

theorem Reachable.trans_of (dial : GoString → Bool) (a b c : State)
    (hab : Reachable dial a b) (hbc : Reachable dial b c) : Reachable dial a c := by
  induction hbc with
  | refl => exact hab
  | step _ hs ih => exact ih.step hs

theorem reachable_runSchedule (dial : GoString → Bool) (sched : List (Option Nat)) :
    ∀ (st0 st : State), Reachable dial st0 st →
      Reachable dial st0 (runSchedule dial sched st) := by
  induction sched with
  | nil => intro st0 st h; exact h
  | cons m rest ih =>
    intro st0 st h
    cases m with
    | none =>
      simp only [runSchedule]
      cases hm : mainStep st with
      | none => exact ih st0 st h
      | some st1 => exact ih st0 st1 (h.step (Or.inl hm))
    | some i =>
      simp only [runSchedule]
      cases hp : probeStep dial i st with
      | none => exact ih st0 st h
      | some st1 => exact ih st0 st1 (h.step (Or.inr ⟨i, hp⟩))

theorem mainStep_pc_ne_crashed (st st1 : State) (h : mainStep st = some st1) :
    st1.pc ≠ .crashed := by
  unfold mainStep at h
  split at h
  · split at h <;> (simp only [Option.some.injEq] at h; subst h; simp)
  · simp only [Option.some.injEq] at h; subst h; simp
  · simp only [Option.some.injEq] at h; subst h; simp
  · split at h
    · simp only [Option.some.injEq] at h; subst h; simp
    · simp at h
  · simp at h
  · simp at h

theorem probeStep_pc (dial : GoString → Bool) (i : Nat) (st st1 : State)
    (h : probeStep dial i st = some st1) : st1.pc = st.pc := by
  unfold probeStep at h
  split at h
  · simp at h
  · split at h
    · simp at h
    · simp only [Option.some.injEq] at h
      subst h
      rfl

theorem reachable_pc_ne_crashed (dial : GoString → Bool) (st0 st : State)
    (h0 : st0.pc ≠ .crashed) (h : Reachable dial st0 st) : st.pc ≠ .crashed := by
  induction h with
  | refl => exact h0
  | step _ hs ih =>
    rcases hs with hm | ⟨i, hp⟩
    · exact mainStep_pc_ne_crashed _ _ hm
    · rw [probeStep_pc dial i _ _ hp]
      exact ih

theorem probeStep_of_get? (dial : GoString → Bool) (i : Nat) (st : State) (p : Probe)
    (hpc : st.pc ≠ .returned) (hcr : st.pc ≠ .crashed) (hp : st.running.get? i = some p) :
    probeStep dial i st = some { st with
      wg := st.wg - 1
      running := st.running.eraseIdx i
      stdout := if dial (dialAddress p) then st.stdout ++ [openLine p] else st.stdout
      finished := st.finished ++ [p] } := by
  unfold probeStep
  rw [if_neg (by simp [hpc, hcr])]
  simp only [hp]

theorem drain_running (dial : GoString → Bool) : ∀ (run : List Probe) (st : State),
    st.running = run → st.pc ≠ .returned → st.pc ≠ .crashed →
    Reachable dial st { st with
      wg := st.wg - run.length
      running := []
      stdout := st.stdout ++ (run.filter (connects dial)).map openLine
      finished := st.finished ++ run } := by
  intro run
  induction run with
  | nil =>
    intro st hrun _ _
    have : ({ st with
        wg := st.wg - (([] : List Probe).length : Int)
        running := []
        stdout := st.stdout ++ (([] : List Probe).filter (connects dial)).map openLine
        finished := st.finished ++ [] } : State) = st := by
      cases st
      simp only at hrun
      simp [hrun]
    rw [this]
    exact Reachable.refl
  | cons p rest ih =>
    intro st hrun hpc hcr
    have hget : st.running.get? 0 = some p := by rw [hrun]; rfl
    have hstep := probeStep_of_get? dial 0 st p hpc hcr hget
    have herase : st.running.eraseIdx 0 = rest := by rw [hrun]; rfl
    rw [herase] at hstep
    have h1 : Reachable dial st _ := Reachable.refl.step (Or.inr ⟨0, hstep⟩)
    have h2 := ih _ (rfl : ({ st with
        wg := st.wg - 1
        running := rest
        stdout := if dial (dialAddress p) then st.stdout ++ [openLine p] else st.stdout
        finished := st.finished ++ [p] } : State).running = rest) hpc hcr
    have h3 := Reachable.trans_of dial _ _ _ h1 h2
    have heq : ({ st with
        wg := st.wg - ((p :: rest).length : Int)
        running := []
        stdout := st.stdout ++ ((p :: rest).filter (connects dial)).map openLine
        finished := st.finished ++ (p :: rest) } : State) =
      { pc := st.pc, ip := st.ip, ipEnd := st.ipEnd, portList := st.portList,
        wg := st.wg - 1 - (rest.length : Int), running := [],
        stdout := (if dial (dialAddress p) then st.stdout ++ [openLine p] else st.stdout) ++
          (rest.filter (connects dial)).map openLine,
        launched := st.launched, finished := st.finished ++ [p] ++ rest } := by
      have hwg : st.wg - ((p :: rest).length : Int) = st.wg - 1 - (rest.length : Int) := by
        simp only [List.length_cons]
        push_cast
        ring
      have hwg2 : st.wg - ((rest.length : Int) + 1) = st.wg - 1 - (rest.length : Int) := by
        ring
      by_cases hd : dial (dialAddress p) = true
      · simp [connects, hd, hwg2]
      · simp [connects, hd, hwg2]
    rw [heq]
    exact h3

/-! ## Rejected addresses -/

/-- Counterexample to C2 as stated: `"::ffff:1.2.3.4-::ffff:1.2.3.5"` has exactly
one `-` and neither side is a dotted quad, yet `parseIPRange` returns a range
and no error: `net.ParseIP` accepts IPv4-mapped IPv6 literals and `To4` converts
them. -/
theorem parseIPRange_accepts_mapped_ipv6 :
    Split '-' (lit "::ffff:1.2.3.4-::ffff:1.2.3.5") =
        [lit "::ffff:1.2.3.4", lit "::ffff:1.2.3.5"] ∧
      ¬ IsDottedQuad (TrimSpace (lit "::ffff:1.2.3.4")) ∧
      ¬ IsDottedQuad (TrimSpace (lit "::ffff:1.2.3.5")) ∧
      parseIPRange (lit "::ffff:1.2.3.4-::ffff:1.2.3.5") = .ok (16909060, 16909061) := by
  refine ⟨by decide, ?_, ?_, by decide⟩
  · intro h
    exact IsDottedQuad.colon_not_mem _ h (by decide)
  · intro h
    exact IsDottedQuad.colon_not_mem _ h (by decide)

/-- C2 (amended): for every input with exactly one `-` in which at least one of
the two whitespace-trimmed sides is neither a valid dotted quad (four decimal
octets in `[0, 255]` without leading zeros, separated by dots) nor an IPv6
literal accepted by `net.ParseIP`, `parseIPRange` returns an `InvalidAddress`
error and no range: "Invalid start IP address: " followed by the first part, or
"Invalid end IP address: " followed by the second. -/
theorem parseIPRange_invalidAddress (s p0 p1 : GoString) (hs : Split '-' s = [p0, p1])
    (h : NotAnAddress (TrimSpace p0) ∨ NotAnAddress (TrimSpace p1)) :
    ∃ msg, parseIPRange s = .error msg ∧ errorKind msg = some .InvalidAddress ∧
      (msg = lit "Invalid start IP address: " ++ p0 ∨
        msg = lit "Invalid end IP address: " ++ p1) := by
  have hne : s ≠ [] := by
    rintro rfl
    simp [Split] at hs
  cases h0 : ParseIP (TrimSpace p0) with
  | none =>
    refine ⟨_, ?_, errorKind_invalidStartIP p0, Or.inl rfl⟩
    simp only [parseIPRange, if_neg hne, hs, h0]
  | some startIP =>
    have h1 : ParseIP (TrimSpace p1) = none := by
      rcases h with h | h
      · rw [ParseIP_of_notAnAddress _ h] at h0
        exact absurd h0 (by simp)
      · exact ParseIP_of_notAnAddress _ h
    refine ⟨_, ?_, errorKind_invalidEndIP p1, Or.inr rfl⟩
    simp only [parseIPRange, if_neg hne, hs, h0, h1]

/-- Witness of C2 (amended): `"999.1.1.1-10.0.0.2"` yields
"Invalid start IP address: 999.1.1.1". -/
theorem parseIPRange_invalidAddress_witness :
    ∃ msg, parseIPRange (lit "999.1.1.1-10.0.0.2") = .error msg ∧
      errorKind msg = some .InvalidAddress ∧
      (msg = lit "Invalid start IP address: " ++ lit "999.1.1.1" ∨
        msg = lit "Invalid end IP address: " ++ lit "10.0.0.2") :=
  parseIPRange_invalidAddress (lit "999.1.1.1-10.0.0.2") (lit "999.1.1.1") (lit "10.0.0.2")
    (by decide)
    (Or.inl ⟨fun hq => IsDottedQuad.parseIP_ne_none _ hq (by decide),
      fun h6 => absurd h6.1 (by decide)⟩)
/-! ## The address range parser -/

/-- C1: for valid dotted quads `A = a0.a1.a2.a3` and `B = b0.b1.b2.b3` (octets in
`[0, 255]`) with `pack A ≤ pack B`, `parseIPRange "A-B"` returns
`(pack A, pack B)` with a nil error. -/
theorem parseIPRange_ordered (a0 a1 a2 a3 b0 b1 b2 b3 : Nat)
    (ha0 : a0 < 256) (ha1 : a1 < 256) (ha2 : a2 < 256) (ha3 : a3 < 256)
    (hb0 : b0 < 256) (hb1 : b1 < 256) (hb2 : b2 < 256) (hb3 : b3 < 256)
    (hle : pack a0 a1 a2 a3 ≤ pack b0 b1 b2 b3) :
    parseIPRange (dottedQuad a0 a1 a2 a3 ++ '-' :: dottedQuad b0 b1 b2 b3) =
      .ok (pack a0 a1 a2 a3, pack b0 b1 b2 b3) := by
  rw [parseIPRange_dottedQuads a0 a1 a2 a3 b0 b1 b2 b3 ha0 ha1 ha2 ha3 hb0 hb1 hb2 hb3,
    if_neg (by omega)]

/-- Witness of C1: `"10.0.0.1-10.0.0.2"` parses to `(167772161, 167772162)`. -/
theorem parseIPRange_ordered_witness :
    pack 10 0 0 1 ≤ pack 10 0 0 2 ∧
      parseIPRange (lit "10.0.0.1-10.0.0.2") = .ok (167772161, 167772162) :=
  ⟨by decide, parseIPRange_ordered 10 0 0 1 10 0 0 2 (by decide) (by decide) (by decide)
    (by decide) (by decide) (by decide) (by decide) (by decide) (by decide)⟩

/-- C10: for valid dotted quads `A`, `B` with `pack A > pack B`,
`parseIPRange "A-B"` returns the error "Start IP address cannot be greater than
end IP address" (a `RangeOrderError`) and no range; for `A = B` it returns the
one-address range `(pack A, pack A)`. -/
theorem parseIPRange_reversed_or_equal (a0 a1 a2 a3 b0 b1 b2 b3 : Nat)
    (ha0 : a0 < 256) (ha1 : a1 < 256) (ha2 : a2 < 256) (ha3 : a3 < 256)
    (hb0 : b0 < 256) (hb1 : b1 < 256) (hb2 : b2 < 256) (hb3 : b3 < 256) :
    (pack a0 a1 a2 a3 > pack b0 b1 b2 b3 →
      parseIPRange (dottedQuad a0 a1 a2 a3 ++ '-' :: dottedQuad b0 b1 b2 b3) =
          .error (lit "Start IP address cannot be greater than end IP address") ∧
        errorKind (lit "Start IP address cannot be greater than end IP address") =
          some .RangeOrderError) ∧
    parseIPRange (dottedQuad a0 a1 a2 a3 ++ '-' :: dottedQuad a0 a1 a2 a3) =
      .ok (pack a0 a1 a2 a3, pack a0 a1 a2 a3) := by
  constructor
  · intro hgt
    rw [parseIPRange_dottedQuads a0 a1 a2 a3 b0 b1 b2 b3 ha0 ha1 ha2 ha3 hb0 hb1 hb2 hb3,
      if_pos hgt]
    exact ⟨rfl, by decide⟩
  · rw [parseIPRange_dottedQuads a0 a1 a2 a3 a0 a1 a2 a3 ha0 ha1 ha2 ha3 ha0 ha1 ha2 ha3,
      if_neg (by omega)]

/-- Witness of C10: `"10.0.0.2-10.0.0.1"` is rejected, `"10.0.0.2-10.0.0.2"`
is the range of one address. -/
theorem parseIPRange_reversed_or_equal_witness :
    (pack 10 0 0 2 > pack 10 0 0 1 →
      parseIPRange (lit "10.0.0.2-10.0.0.1") =
          .error (lit "Start IP address cannot be greater than end IP address") ∧
        errorKind (lit "Start IP address cannot be greater than end IP address") =
          some .RangeOrderError) ∧
    parseIPRange (lit "10.0.0.2-10.0.0.2") = .ok (167772162, 167772162) :=
  parseIPRange_reversed_or_equal 10 0 0 2 10 0 0 1 (by decide) (by decide) (by decide)
    (by decide) (by decide) (by decide) (by decide) (by decide)

/-! ## The port list parser -/

/-- C3: for every port list whose comma-separated tokens are all valid (a port
`p` in `[1, 65535]`, or `s-e` with `1 ≤ s ≤ e ≤ 65535`), `parsePortList` returns
the concatenation, in token order, of the expansions `[p]` and
`[s, s+1, ..., e]`, without deduplication or sorting. -/
theorem parsePortList_valid (s : GoString) (toks : List PortToken)
    (hs : Split ',' s = toks.map PortToken.text) (hv : ∀ t ∈ toks, t.Valid) :
    parsePortList s = .ok (toks.map PortToken.expand).flatten := by
  have hne : s ≠ [] := by
    rintro rfl
    cases toks with
    | nil => simp [Split] at hs
    | cons t ts =>
      have ht : t.text = [] := by
        have := (List.cons.inj (show [] :: [] = t.text :: ts.map PortToken.text from hs)).1
        exact this.symm
      exact t.text_ne_nil ht
  unfold parsePortList
  rw [if_neg hne, hs, parsePortListLoop_tokens toks [] hv]
  simp

/-- Witness of C3: `"80,443,8000-8002"` yields `[80, 443, 8000, 8001, 8002]`. -/
theorem parsePortList_valid_witness :
    parsePortList (lit "80,443,8000-8002") = .ok [80, 443, 8000, 8001, 8002] :=
  parsePortList_valid (lit "80,443,8000-8002") [.single 80, .single 443, .range 8000 8002]
    (by decide)
    (by
      intro t ht
      simp only [List.mem_cons, List.mem_singleton, List.not_mem_nil, or_false] at ht
      rcases ht with rfl | rfl | rfl <;> simp [PortToken.Valid])

/-- Counterexample to C8 as stated: the empty port list has the single token
`""`, which is not a parseable integer, yet the error is "Port list must be
specified" (`InvalidInput`), not an `InvalidPort` error. -/
theorem parsePortList_empty_not_invalidPort :
    Split ',' (lit "") = [] ++ lit "" :: [] ∧ InvalidPortToken (lit "") ∧
      parsePortList (lit "") = .error (lit "Port list must be specified") ∧
      errorKind (lit "Port list must be specified") = some .InvalidInput ∧
      errorKind (lit "Port list must be specified") ≠ some .InvalidPort :=
  ⟨by decide, Or.inl ⟨[], by decide, Or.inl (by decide)⟩, by decide, by decide, by decide⟩

/-- C8 (amended): for every non-empty port list in which the first token that
is not accepted is a single part that is not a parseable integer or lies outside
`[1, 65535]`, or a two-part token one of whose parts is such, `parsePortList`
returns an `InvalidPort` error and no list; a bounds failure in a two-part token
takes precedence over `start > end`. -/
theorem parsePortList_invalidPort (s : GoString) (pre post : List GoString) (t : GoString)
    (hne : s ≠ []) (hs : Split ',' s = pre ++ t :: post) (hpre : ∀ u ∈ pre, AcceptedToken u)
    (ht : InvalidPortToken t) :
    ∃ msg, parsePortList s = .error msg ∧ errorKind msg = some .InvalidPort ∧
      errorKind msg ≠ some .RangeOrderError := by
  obtain ⟨msg, hmsg, hkind⟩ := parsePortPart_invalidPort t ht
  refine ⟨msg, parsePortList_first_error s pre post t msg hne hs hpre hmsg, hkind, ?_⟩
  rw [hkind]
  decide

/-- Witness of C8: in `"80,70000-100,x"` the first invalid token is `70000-100`,
whose start port is out of range. -/
theorem parsePortList_invalidPort_witness :
    ∃ msg, parsePortList (lit "80,70000-100,x") = .error msg ∧
      errorKind msg = some .InvalidPort ∧ errorKind msg ≠ some .RangeOrderError :=
  parsePortList_invalidPort (lit "80,70000-100,x") [lit "80"] [lit "x"] (lit "70000-100")
    (by decide) (by decide)
    (by
      intro u hu
      rw [List.mem_singleton] at hu
      subst hu
      exact ⟨[80], by decide⟩)
    (Or.inr ⟨lit "70000", lit "100", by decide,
      Or.inl (Or.inr ⟨70000, by decide, Or.inr (by decide)⟩)⟩)

/-- C9: for a port list in which the first token that is not accepted is `s-e`
with `s` and `e` integers in `[1, 65535]` and `s > e`, `parsePortList` returns
the error "Start port number cannot be greater than end port number" (a
`RangeOrderError`) and no list; a token `s-e` with `s = e` is accepted and
contributes the single port `s`. -/
theorem parsePortList_rangeOrder (s : GoString) (pre post : List GoString) (t x y : GoString)
    (a b : Int) (hs : Split ',' s = pre ++ t :: post) (hpre : ∀ u ∈ pre, AcceptedToken u)
    (ht : Split '-' t = [x, y]) (hx : Atoi x = some a) (hy : Atoi y = some b)
    (ha : 1 ≤ a ∧ a ≤ 65535) (hb : 1 ≤ b ∧ b ≤ 65535) :
    (a > b →
      parsePortList s =
          .error (lit "Start port number cannot be greater than end port number") ∧
        errorKind (lit "Start port number cannot be greater than end port number") =
          some .RangeOrderError) ∧
    (a = b → parsePortPart t = .ok [a]) := by
  have hne : s ≠ [] := by
    rintro rfl
    have h1 : pre ++ t :: post = [[]] := hs.symm
    have ht0 : t = [] := by
      cases pre with
      | nil => simpa using (List.cons.inj h1).1
      | cons p ps => simp at h1
    rw [ht0] at ht
    simp [Split] at ht
  constructor
  · intro hgt
    refine ⟨parsePortList_first_error s pre post t _ hne hs hpre ?_, by decide⟩
    simp only [parsePortPart, ht, hx, hy]
    rw [if_neg (by omega), if_neg (by omega), if_pos hgt]
  · intro hab
    subst hab
    simp only [parsePortPart, ht, hx, hy]
    rw [if_neg (by omega), if_neg (by omega), if_neg (by omega)]
    simp [List.range_succ]

/-- Witness of C9: `"100-50"` is a `RangeOrderError`; in `"5-5"` the token
contributes the single port 5. -/
theorem parsePortList_rangeOrder_witness :
    ((100 : Int) > 50 →
      parsePortList (lit "100-50") =
          .error (lit "Start port number cannot be greater than end port number") ∧
        errorKind (lit "Start port number cannot be greater than end port number") =
          some .RangeOrderError) ∧
    ((5 : Int) = 5 → parsePortPart (lit "5-5") = .ok [5]) :=
  ⟨(parsePortList_rangeOrder (lit "100-50") [] [] (lit "100-50") (lit "100") (lit "50") 100 50
      (by decide) (by simp) (by decide) (by decide) (by decide) (by decide) (by decide)).1,
    (parsePortList_rangeOrder (lit "5-5") [] [] (lit "5-5") (lit "5") (lit "5") 5 5
      (by decide) (by simp) (by decide) (by decide) (by decide) (by decide) (by decide)).2⟩

/-! ## The dispatcher -/

/-- C4 (code defect, evaluated at the failing input): for the range
`255.255.255.255-255.255.255.255` and the port list `80` the Cartesian product
has the single pair `(255.255.255.255, 80)`, but after six steps of the main
goroutine a second probe has been launched, for the address `0.0.0.0` outside
the range: `ip++` wrapped around to 0 and `ip <= ipEnd` still holds. -/
theorem dispatch_wraps_past_last_address :
    parseIPRange (lit "255.255.255.255-255.255.255.255") = .ok (4294967295, 4294967295) ∧
      parsePortList (lit "80") = .ok [80] ∧
      productProbes 4294967295 4294967295 [80] = [(lit "255.255.255.255", 80)] ∧
      (mainSteps 6 (start (lit "255.255.255.255-255.255.255.255") (lit "80"))).launched =
        [(lit "255.255.255.255", 80), (lit "0.0.0.0", 80)] := by
  refine ⟨by decide, by decide, by decide, by decide⟩

/-- C5 (code defect, evaluated at the failing input): for the range
`0.0.0.0-255.255.255.255` the main goroutine, however many steps it takes, is
still inside the dispatch loops: it never reaches `wg.Wait()` and never
returns. -/
theorem dispatch_never_ends_at_last_address (n : Nat) :
    parseIPRange (lit "0.0.0.0-255.255.255.255") = .ok (0, 4294967295) ∧
      (mainSteps n (start (lit "0.0.0.0-255.255.255.255") (lit "80"))).pc ≠ .waiting ∧
      (mainSteps n (start (lit "0.0.0.0-255.255.255.255") (lit "80"))).pc ≠ .returned := by
  have hs : start (lit "0.0.0.0-255.255.255.255") (lit "80") =
      ⟨.outer, 0, 4294967295, [80], 0, [], [], [], []⟩ := by decide
  refine ⟨by decide, ?_⟩
  rw [hs]
  exact (mainSteps_inLoops n _ (Or.inl rfl) rfl (by decide)).not_waiting

/-- C6: with the TCP connect an arbitrary outcome function `dial`, for a run
whose range and port list parsed: in every state the lines printed are exactly
the lines "Port <port> is open on <ip>" of the finished probes whose connect
succeeded, one each, and once `main` has returned they are, up to order, one
line for each dispatched pair whose connect succeeded; every running probe
finishes in one step of its own, printing its line when its connect succeeded
and nothing when it failed; the probes launched so far can always run to
completion, and then the output is one line per launched pair that connected;
and when the range ends below `255.255.255.255` a complete run exists: `main`
returns having dispatched the Cartesian product and printed exactly the lines
of its pairs whose connect succeeded. -/
theorem probes_print_open_lines (dial : GoString → Bool) (ipRange ports : GoString)
    (ipStart ipEnd : Nat) (portList : List Int) (st : State)
    (hr : parseIPRange ipRange = .ok (ipStart, ipEnd))
    (hp : parsePortList ports = .ok portList)
    (hst : Reachable dial (start ipRange ports) st) :
    st.stdout = (st.finished.filter (connects dial)).map openLine ∧
    (st.pc = .returned →
      st.stdout.Perm ((st.launched.filter (connects dial)).map openLine)) ∧
    (∀ i p, st.running.get? i = some p →
      ∃ st1, probeStep dial i st = some st1 ∧ st1.finished = st.finished ++ [p] ∧
        st1.stdout = st.stdout ++ (if connects dial p then [openLine p] else [])) ∧
    (∃ st1, Reachable dial st st1 ∧ st1.launched = st.launched ∧ st1.running = [] ∧
      st1.stdout.Perm ((st.launched.filter (connects dial)).map openLine)) ∧
    (ipEnd < 2 ^ 32 - 1 →
      ∃ st1, Reachable dial (start ipRange ports) st1 ∧ st1.pc = .returned ∧
        st1.launched = productProbes ipStart ipEnd portList ∧
        st1.stdout =
          ((productProbes ipStart ipEnd portList).filter (connects dial)).map openLine) := by
  have hstart := start_ok ipRange ports ipStart ipEnd portList hr hp
  have h0 : RunInvariant dial (start ipRange ports) := by
    rw [hstart]
    exact ⟨rfl, List.Perm.refl _, rfl, fun _ => rfl⟩
  obtain ⟨h1, h2, _, h4⟩ := RunInvariant.reachable dial _ st h0 hst
  have hcr : st.pc ≠ .crashed :=
    reachable_pc_ne_crashed dial _ st (by rw [hstart]; simp) hst
  have hret : st.pc = .returned →
      st.stdout.Perm ((st.launched.filter (connects dial)).map openLine) := by
    intro hret
    have h2a := h2
    rw [h4 hret, List.append_nil] at h2a
    rw [h1]
    exact (h2a.filter _).map _
  refine ⟨h1, hret, ?_, ?_, ?_⟩
  · intro i p hget
    have hpc : st.pc ≠ .returned := by
      intro hpc
      rw [h4 hpc] at hget
      simp at hget
    refine ⟨_, probeStep_of_get? dial i st p hpc hcr hget, rfl, ?_⟩
    by_cases hd : dial (dialAddress p) = true
    · simp [connects, hd]
    · simp [connects, hd]
  · by_cases hpc : st.pc = .returned
    · exact ⟨st, Reachable.refl, rfl, h4 hpc, hret hpc⟩
    · refine ⟨_, drain_running dial st.running st rfl hpc hcr, rfl, rfl, ?_⟩
      simp only [h1, ← List.map_append, ← List.filter_append]
      exact (h2.filter _).map _
  · intro hlt
    have hle := parseIPRange_ok_le ipRange ipStart ipEnd hr
    have hreach := reachable_mainSteps dial
      ((ipEnd + 1 - ipStart) * (portList.length + 2) + 1) _ _
      (Reachable.refl : Reachable dial (start ipRange ports) (start ipRange ports))
    rw [hstart, dispatch_cartesian ipStart ipEnd portList hle hlt] at hreach
    have hdrain := drain_running dial (productProbes ipStart ipEnd portList)
      ⟨.waiting, ipEnd + 1, ipEnd, portList, (productProbes ipStart ipEnd portList).length,
        productProbes ipStart ipEnd portList, [], productProbes ipStart ipEnd portList, []⟩
      rfl (by simp) (by simp)
    simp only [sub_self, List.nil_append] at hdrain
    have hfinal : mainStep
        ⟨.waiting, ipEnd + 1, ipEnd, portList, 0, [],
          ((productProbes ipStart ipEnd portList).filter (connects dial)).map openLine,
          productProbes ipStart ipEnd portList, productProbes ipStart ipEnd portList⟩ =
        some ⟨.returned, ipEnd + 1, ipEnd, portList, 0, [],
          ((productProbes ipStart ipEnd portList).filter (connects dial)).map openLine,
          productProbes ipStart ipEnd portList, productProbes ipStart ipEnd portList⟩ := by
      simp [mainStep]
    rw [← hstart] at hreach
    exact ⟨_, ((Reachable.trans_of dial _ _ _ hreach hdrain).step (Or.inl hfinal)),
      rfl, rfl, rfl⟩

/-- Witness of C6: the run of `10.0.0.1-10.0.0.1` and `80`, with a connect that
succeeds, under the schedule main, main, probe 0, main, main, main: `main`
returns having printed the one line `Port 80 is open on 10.0.0.1`; and the
complete run that the theorem gives for this input. -/
theorem probes_print_open_lines_witness :
    runSchedule (fun _ => true) [none, none, some 0, none, none, none]
        (start (lit "10.0.0.1-10.0.0.1") (lit "80")) =
      ⟨.returned, 167772162, 167772161, [80], 0, [], [lit "Port 80 is open on 10.0.0.1"],
        [(lit "10.0.0.1", 80)], [(lit "10.0.0.1", 80)]⟩ ∧
    (∃ st1, Reachable (fun _ => true) (start (lit "10.0.0.1-10.0.0.1") (lit "80")) st1 ∧
      st1.pc = .returned ∧ st1.launched = [(lit "10.0.0.1", 80)] ∧
      st1.stdout = [lit "Port 80 is open on 10.0.0.1"]) := by
  have hr : parseIPRange (lit "10.0.0.1-10.0.0.1") = .ok (167772161, 167772161) := by decide
  have hp : parsePortList (lit "80") = .ok [80] := by decide
  have hrun : runSchedule (fun _ => true) [none, none, some 0, none, none, none]
      (start (lit "10.0.0.1-10.0.0.1") (lit "80")) =
      ⟨.returned, 167772162, 167772161, [80], 0, [], [lit "Port 80 is open on 10.0.0.1"],
        [(lit "10.0.0.1", 80)], [(lit "10.0.0.1", 80)]⟩ := by decide
  have hreach := reachable_runSchedule (fun _ => true)
    [none, none, some 0, none, none, none] _ _
    (Reachable.refl : Reachable (fun _ => true)
      (start (lit "10.0.0.1-10.0.0.1") (lit "80")) _)
  exact ⟨hrun,
    (probes_print_open_lines (fun _ => true) (lit "10.0.0.1-10.0.0.1") (lit "80")
      167772161 167772161 [80] _ hr hp hreach).2.2.2.2 (by decide)⟩

/-- C7 (code defect, evaluated at the failing input): for the arguments
`::1-::2` and the empty port list, `parsePortList` fails, but `main` prints no
line at all: `net.ParseIP` accepts both IPv6 addresses, `To4` returns nil for
them and `ipToInt` panics on `ip[0]` before the port list is parsed. -/
theorem main_panics_before_port_error :
    parsePortList (lit "") = .error (lit "Port list must be specified") ∧
      ParseIP (lit "::1") = some [0, 0, 0, 0, 0, 0, 0, 0, 0, 0, 0, 0, 0, 0, 0, 1] ∧
      To4 [0, 0, 0, 0, 0, 0, 0, 0, 0, 0, 0, 0, 0, 0, 0, 1] = [] ∧
      parseIPRange (lit "::1-::2") = .panic ∧
      start (lit "::1-::2") (lit "") = State.halted .crashed [] ∧
      (start (lit "::1-::2") (lit "")).stdout = [] := by
  refine ⟨by decide, by decide, by decide, by decide, by decide, by decide⟩

/-! ## Format and input errors -/

/-- C11: for every non-empty input in which the number of `-` characters is not
exactly one, `parseIPRange` returns the `InvalidFormat` error
"Invalid IP range: <input>", whatever the parts contain: the format check comes
before the validation of the addresses. -/
theorem parseIPRange_invalidFormat (s : GoString) (hne : s ≠ [])
    (hcount : s.count '-' ≠ 1) :
    parseIPRange s = .error (lit "Invalid IP range: " ++ s) ∧
      errorKind (lit "Invalid IP range: " ++ s) = some .InvalidFormat := by
  refine ⟨?_, errorKind_invalidIPRange s⟩
  have hlen : (Split '-' s).length ≠ 2 := by
    rw [Split_length]
    omega
  unfold parseIPRange
  rw [if_neg hne]
  split
  · rename_i p0 p1 hsp
    rw [hsp] at hlen
    exact absurd rfl hlen
  · rfl

/-- Witness of C11: `"10.0.0.1"` has no `-` and yields
"Invalid IP range: 10.0.0.1". -/
theorem parseIPRange_invalidFormat_witness :
    parseIPRange (lit "10.0.0.1") = .error (lit "Invalid IP range: " ++ lit "10.0.0.1") ∧
      errorKind (lit "Invalid IP range: " ++ lit "10.0.0.1") = some .InvalidFormat :=
  parseIPRange_invalidFormat (lit "10.0.0.1") (by decide) (by decide)

/-- C12: `parseIPRange ""` fails with "IP range must be specified" and
`parsePortList ""` with "Port list must be specified", both `InvalidInput`; and
the empty string is the only input on which either parser returns an
`InvalidInput` error. -/
theorem invalidInput_iff_empty :
    (parseIPRange [] = .error (lit "IP range must be specified") ∧
      errorKind (lit "IP range must be specified") = some .InvalidInput) ∧
    (parsePortList [] = .error (lit "Port list must be specified") ∧
      errorKind (lit "Port list must be specified") = some .InvalidInput) ∧
    (∀ s msg, parseIPRange s = .error msg → errorKind msg = some .InvalidInput → s = []) ∧
    (∀ s msg, parsePortList s = .error msg → errorKind msg = some .InvalidInput → s = []) := by
  refine ⟨⟨by decide, by decide⟩, ⟨by decide, by decide⟩, ?_, ?_⟩
  · intro s msg h hk
    by_contra hne
    rcases parseIPRange_error_kind s msg hne h with h1 | h1 | h1 <;>
      (rw [h1] at hk; cases hk)
  · intro s msg h hk
    by_contra hne
    unfold parsePortList at h
    rw [if_neg hne] at h
    obtain ⟨t, _, ht⟩ := parsePortListLoop_error_mem _ _ _ h
    rcases parsePortPart_error_kind t msg ht with h1 | h1 | h1 <;>
      (rw [h1] at hk; cases hk)

/-! ## Invariants of the parsed values -/

/-- C13: whenever `parsePortList` succeeds, every element of the returned
sequence is an integer in `[1, 65535]`. -/
theorem parsePortList_ports_in_range (s : GoString) (ports : List Int)
    (h : parsePortList s = .ok ports) : ∀ p ∈ ports, 1 ≤ p ∧ p ≤ 65535 := by
  unfold parsePortList at h
  split at h
  · cases h
  · obtain ⟨rest, h1, _, h3⟩ := parsePortListLoop_ok_spec _ _ _ h
    rw [h1, List.nil_append]
    exact h3

/-- Witness of C13: the first and the last port of `"80,443,8000-8002"`. -/
theorem parsePortList_ports_in_range_witness :
    (1 ≤ (80 : Int) ∧ (80 : Int) ≤ 65535) ∧ (1 ≤ (8002 : Int) ∧ (8002 : Int) ≤ 65535) :=
  ⟨parsePortList_ports_in_range (lit "80,443,8000-8002") [80, 443, 8000, 8001, 8002]
      (by decide) 80 (by decide),
    parsePortList_ports_in_range (lit "80,443,8000-8002") [80, 443, 8000, 8001, 8002]
      (by decide) 8002 (by decide)⟩

/-- C14: whenever `parseIPRange` returns a nil error, for an input of any shape,
the returned pair satisfies `start ≤ end`, both being 32-bit values. -/
theorem parseIPRange_start_le_end (s : GoString) (a b : Nat)
    (h : parseIPRange s = .ok (a, b)) : a ≤ b ∧ a < 2 ^ 32 ∧ b < 2 ^ 32 :=
  ⟨parseIPRange_ok_le s a b h, parseIPRange_ok_lt s a b h⟩

/-- Witness of C14: the range of `" ::ffff:10.0.0.1 -10.0.0.2"`. -/
theorem parseIPRange_start_le_end_witness :
    167772161 ≤ 167772162 ∧ 167772161 < 2 ^ 32 ∧ 167772162 < 2 ^ 32 :=
  parseIPRange_start_le_end (lit " ::ffff:10.0.0.1 -10.0.0.2") 167772161 167772162
    (by decide)

/-- C20: whenever `parsePortList` succeeds the returned sequence is non-empty
(every accepted token contributes at least one port), so a scan that starts
launches at least one probe for its first address: after the first pass of the
inner loop the probes launched are one per port, for the address `ipStart`. -/
theorem parsePortList_ports_nonempty (s : GoString) (ports : List Int)
    (h : parsePortList s = .ok ports) :
    ports ≠ [] ∧
      ∀ ipRange ipStart ipEnd, parseIPRange ipRange = .ok (ipStart, ipEnd) →
        (mainSteps (ports.length + 2) (start ipRange s)).launched =
            ports.map (fun port => (intToIPString ipStart, port)) ∧
          0 < (mainSteps (ports.length + 2) (start ipRange s)).launched.length := by
  have hne : ports ≠ [] := by
    unfold parsePortList at h
    split at h
    · cases h
    · obtain ⟨rest, h1, h2, _⟩ := parsePortListLoop_ok_spec _ _ _ h
      have hsp : 0 < (Split ',' s).length := List.length_pos.2 (Split_ne_nil ',' s)
      intro hnil
      rw [hnil, List.nil_append] at h1
      rw [← h1] at h2
      simp only [List.length_nil] at h2
      omega
  refine ⟨hne, ?_⟩
  intro ipRange ipStart ipEnd hr
  have hle := parseIPRange_ok_le ipRange ipStart ipEnd hr
  have hm := mainSteps_address ⟨.outer, ipStart, ipEnd, ports, 0, [], [], [], []⟩ rfl hle
  simp only at hm
  rw [start_ok ipRange s ipStart ipEnd ports hr h, hm]
  simp only [List.nil_append, List.length_map]
  exact ⟨trivial, List.length_pos.2 hne⟩

/-- Witness of C20: the port list `"80,81"` with the range
`10.0.0.1-10.0.0.2`. -/
theorem parsePortList_ports_nonempty_witness :
    ([80, 81] : List Int) ≠ [] ∧
      ∀ ipRange ipStart ipEnd, parseIPRange ipRange = .ok (ipStart, ipEnd) →
        (mainSteps (([80, 81] : List Int).length + 2) (start ipRange (lit "80,81"))).launched =
            ([80, 81] : List Int).map (fun port => (intToIPString ipStart, port)) ∧
          0 < (mainSteps (([80, 81] : List Int).length + 2)
            (start ipRange (lit "80,81"))).launched.length :=
  parsePortList_ports_nonempty (lit "80,81") [80, 81] (by decide)

/-! ## Joining port lists -/

/-- C19: `parsePortList` distributes over joining with a comma: for non-empty
`x` and `y`, the parse of `x,y` succeeds if and only if the parses of `x` and of
`y` both succeed, and then returns the first result followed by the second; if
the parse of `x` fails the joined parse fails with the same error, otherwise
with the error of `y`; no partial list is ever returned. -/
theorem parsePortList_comma_join (x y : GoString) (hx : x ≠ []) (hy : y ≠ []) :
    ((∃ ports, parsePortList (x ++ ',' :: y) = .ok ports) ↔
      (∃ px, parsePortList x = .ok px) ∧ (∃ py, parsePortList y = .ok py)) ∧
    (∀ px py, parsePortList x = .ok px → parsePortList y = .ok py →
      parsePortList (x ++ ',' :: y) = .ok (px ++ py)) ∧
    (∀ msg, parsePortList x = .error msg → parsePortList (x ++ ',' :: y) = .error msg) ∧
    (∀ px msg, parsePortList x = .ok px → parsePortList y = .error msg →
      parsePortList (x ++ ',' :: y) = .error msg) := by
  have hxy : x ++ ',' :: y ≠ [] := by simp
  have hjoin : parsePortList (x ++ ',' :: y) =
      match parsePortList x with
      | .ok px =>
        match parsePortList y with
        | .ok py => .ok (px ++ py)
        | .error msg => .error msg
        | .panic => .panic
      | .error msg => .error msg
      | .panic => .panic := by
    unfold parsePortList
    rw [if_neg hxy, if_neg hx, if_neg hy, Split_append_any, parsePortListLoop_append]
    cases h1 : parsePortListLoop (Split ',' x) [] with
    | ok px => simp only; exact parsePortListLoop_acc _ px
    | error msg => rfl
    | panic => rfl
  have hxp : parsePortList x ≠ .panic := by
    unfold parsePortList
    rw [if_neg hx]
    exact parsePortListLoop_ne_panic _ _
  have hyp : parsePortList y ≠ .panic := by
    unfold parsePortList
    rw [if_neg hy]
    exact parsePortListLoop_ne_panic _ _
  refine ⟨⟨?_, ?_⟩, ?_, ?_, ?_⟩
  · rintro ⟨ports, hp⟩
    rw [hjoin] at hp
    cases h1 : parsePortList x with
    | ok px =>
      rw [h1] at hp
      cases h2 : parsePortList y with
      | ok py => exact ⟨⟨px, rfl⟩, ⟨py, rfl⟩⟩
      | error msg => rw [h2] at hp; cases hp
      | panic => rw [h2] at hp; cases hp
    | error msg => rw [h1] at hp; cases hp
    | panic => rw [h1] at hp; cases hp
  · rintro ⟨⟨px, h1⟩, ⟨py, h2⟩⟩
    exact ⟨px ++ py, by rw [hjoin, h1, h2]⟩
  · intro px py h1 h2
    rw [hjoin, h1, h2]
  · intro msg h1
    rw [hjoin, h1]
  · intro px msg h1 h2
    rw [hjoin, h1, h2]

/-- Witness of C19: joining `"80,x"` (which fails) with `"443"`, and `"80"` with
`"8000-8001"`. -/
theorem parsePortList_comma_join_witness :
    parsePortList (lit "80,x,443") = .error (lit "Invalid port number: x") ∧
      parsePortList (lit "80,8000-8001") = .ok [80, 8000, 8001] :=
  ⟨(parsePortList_comma_join (lit "80,x") (lit "443") (by decide) (by decide)).2.2.1
      (lit "Invalid port number: x") (by decide),
    (parsePortList_comma_join (lit "80") (lit "8000-8001") (by decide) (by decide)).2.1
      [80] [8000, 8001] (by decide) (by decide)⟩

/-! ## White space, round trip and panics of the range parser -/

/-- C15: white space around either side of the range is ignored: for valid
dotted quads `A`, `B` and strings `w1 ... w4` of white space,
`parseIPRange (w1 A w2 - w3 B w4)` returns what `parseIPRange (A-B)` returns,
the same pair or the same error. -/
theorem parseIPRange_ignores_padding (w1 w2 w3 w4 : GoString)
    (a0 a1 a2 a3 b0 b1 b2 b3 : Nat)
    (ha0 : a0 < 256) (ha1 : a1 < 256) (ha2 : a2 < 256) (ha3 : a3 < 256)
    (hb0 : b0 < 256) (hb1 : b1 < 256) (hb2 : b2 < 256) (hb3 : b3 < 256)
    (hw1 : ∀ c ∈ w1, isSpace c = true) (hw2 : ∀ c ∈ w2, isSpace c = true)
    (hw3 : ∀ c ∈ w3, isSpace c = true) (hw4 : ∀ c ∈ w4, isSpace c = true) :
    parseIPRange (w1 ++ dottedQuad a0 a1 a2 a3 ++ w2 ++
        '-' :: (w3 ++ dottedQuad b0 b1 b2 b3 ++ w4)) =
      parseIPRange (dottedQuad a0 a1 a2 a3 ++ '-' :: dottedQuad b0 b1 b2 b3) := by
  rw [parseIPRange_pad_dottedQuads w1 w2 w3 w4 a0 a1 a2 a3 b0 b1 b2 b3 ha0 ha1 ha2 ha3
      hb0 hb1 hb2 hb3 hw1 hw2 hw3 hw4,
    parseIPRange_dottedQuads a0 a1 a2 a3 b0 b1 b2 b3 ha0 ha1 ha2 ha3 hb0 hb1 hb2 hb3]

/-- Witness of C15: a space before and two after the first address, a tab after
the second. -/
theorem parseIPRange_ignores_padding_witness :
    parseIPRange (lit " 10.0.0.1  -10.0.0.2" ++ [Char.ofNat 9]) =
      parseIPRange (lit "10.0.0.1-10.0.0.2") :=
  parseIPRange_ignores_padding [' '] [' ', ' '] [] [Char.ofNat 9] 10 0 0 1 10 0 0 2
    (by decide) (by decide) (by decide) (by decide) (by decide) (by decide) (by decide)
    (by decide) (by decide) (by decide) (by decide) (by decide)

/-- C17 (code defect, evaluated at the failing input): on
`"2001:db8::1-2001:db8::2"` `net.ParseIP` accepts both sides, `To4` returns the
nil slice for the first one, and the index `ip[0]` in `ipToInt` is out of
range: `parseIPRange` panics instead of returning a range or an error. -/
theorem parseIPRange_panics_on_ipv6 :
    Split '-' (lit "2001:db8::1-2001:db8::2") = [lit "2001:db8::1", lit "2001:db8::2"] ∧
      ParseIP (TrimSpace (lit "2001:db8::1")) =
        some [0x20, 0x01, 0x0d, 0xb8, 0, 0, 0, 0, 0, 0, 0, 0, 0, 0, 0, 1] ∧
      To4 [0x20, 0x01, 0x0d, 0xb8, 0, 0, 0, 0, 0, 0, 0, 0, 0, 0, 0, 1] = [] ∧
      ipToInt [0x20, 0x01, 0x0d, 0xb8, 0, 0, 0, 0, 0, 0, 0, 0, 0, 0, 0, 1] = none ∧
      parseIPRange (lit "2001:db8::1-2001:db8::2") = .panic := by
  refine ⟨by decide, by decide, by decide, by decide, by decide⟩

/-- C18: address round trip: for 32-bit values `a ≤ b`,
`parseIPRange (intToIPString a - intToIPString b)` succeeds and returns exactly
`(a, b)`; `intToIPString n` is the dotted quad of the octets `(n >> 24) & 255`,
`(n >> 16) & 255`, `(n >> 8) & 255`, `n & 255`, which pack back to `n`. -/
theorem parseIPRange_intToIPString (a b : Nat) (hab : a ≤ b) (hb : b < 2 ^ 32) :
    parseIPRange (intToIPString a ++ '-' :: intToIPString b) = .ok (a, b) ∧
      intToIPString a =
        dottedQuad ((a >>> 24) % 256) ((a >>> 16) % 256) ((a >>> 8) % 256) (a % 256) ∧
      pack ((a >>> 24) % 256) ((a >>> 16) % 256) ((a >>> 8) % 256) (a % 256) = a := by
  have ha : a < 2 ^ 32 := by omega
  have h256 : ∀ m : Nat, m % 256 < 256 := fun m => Nat.mod_lt _ (by decide)
  refine ⟨?_, intToIPString_eq_dottedQuad a, pack_octets a ha⟩
  rw [intToIPString_eq_dottedQuad a, intToIPString_eq_dottedQuad b,
    parseIPRange_dottedQuads _ _ _ _ _ _ _ _ (h256 _) (h256 _) (h256 _) (h256 _) (h256 _)
      (h256 _) (h256 _) (h256 _),
    pack_octets a ha, pack_octets b hb, if_neg (by omega)]

/-- Witness of C18: the addresses 3232235777 (`192.168.1.1`) and 3232236031
(`192.168.1.255`). -/
theorem parseIPRange_intToIPString_witness :
    parseIPRange (lit "192.168.1.1-192.168.1.255") = .ok (3232235777, 3232236031) ∧
      intToIPString 3232235777 = dottedQuad 192 168 1 1 ∧
      pack 192 168 1 1 = 3232235777 :=
  parseIPRange_intToIPString 3232235777 3232236031 (by decide) (by decide)

/-! ## The barrier -/

/-- C16: full barrier: in every state of every run (any arguments, any
interleaving, any outcomes of the connects), once `main` has returned or
crashed no probe goroutine is left in any phase and the probes that exited are
the probes that were launched; every launched goroutine has its `wg.Add(1)`
made before it was started, every `wg.Done()` is the exit of one goroutine, and
the counter of the wait group is the number of adds minus the number of
dones. -/
theorem full_barrier (dial : GoString → Bool) (ipRange ports : GoString) (st : FineState)
    (h : FineReachable dial (fineStart ipRange ports) st) :
    (st.pc = .returned ∨ st.pc = .crashed →
      st.dialing = [] ∧ st.printing = [] ∧ st.exiting = [] ∧ st.exited.Perm st.launched) ∧
    st.adds = st.launched.length + pendingAdd st.pc ∧
    st.dones = st.exited.length ∧
    st.wg = (st.adds : Int) - (st.dones : Int) ∧
    (st.wg = 0 → pendingAdd st.pc = 0 →
      st.dialing = [] ∧ st.printing = [] ∧ st.exiting = []) := by
  obtain ⟨h1, h2, h3, h4, h5⟩ :=
    BarrierInvariant.of_fineReachable dial _ st (BarrierInvariant.at_fineStart ipRange ports) h
  have hlen : st.launched.length =
      st.exited.length + st.dialing.length + st.printing.length + st.exiting.length := by
    have := congrArg Multiset.card h4
    simp only [Multiset.card_add, Multiset.coe_card] at this
    omega
  refine ⟨?_, h2, h3, ?_, ?_⟩
  · intro hret
    obtain ⟨hd, hp, he⟩ := h5 hret
    refine ⟨hd, hp, he, ?_⟩
    rw [hd, hp, he] at h4
    simp only [Multiset.coe_nil, add_zero] at h4
    exact Multiset.coe_eq_coe.1 h4
  · rw [h1, h2, h3, hlen]
    push_cast
    ring
  · intro hwg hpend
    rw [hwg, hpend] at h1
    have hz : st.dialing.length + st.printing.length + st.exiting.length + 0 = 0 := by
      exact_mod_cast h1.symm
    exact ⟨List.length_eq_zero.1 (by omega), List.length_eq_zero.1 (by omega),
      List.length_eq_zero.1 (by omega)⟩

/-- Witness of C16: a complete run on `10.0.0.1-10.0.0.1` and `80` with a
connect that succeeds: `main` returns after the one probe has exited, with one
add and one done. -/
theorem full_barrier_witness :
    fineRun (fun _ => true)
        [none, none, none, some (.dialing, 0), none, some (.printing, 0), none,
          some (.exiting, 0), none]
        (fineStart (lit "10.0.0.1-10.0.0.1") (lit "80")) =
      ⟨.returned, 167772162, 167772161, [80], 0, 1, 1, [], [], [], [(lit "10.0.0.1", 80)],
        [(lit "10.0.0.1", 80)], [lit "Port 80 is open on 10.0.0.1"]⟩ ∧
    ((FinePc.returned = FinePc.returned ∨ FinePc.returned = FinePc.crashed →
      ([] : List Probe) = [] ∧ ([] : List Probe) = [] ∧ ([] : List Probe) = [] ∧
        [(lit "10.0.0.1", (80 : Int))].Perm [(lit "10.0.0.1", (80 : Int))]) ∧
    1 = [(lit "10.0.0.1", (80 : Int))].length + pendingAdd FinePc.returned ∧
    1 = [(lit "10.0.0.1", (80 : Int))].length ∧
    (0 : Int) = ((1 : Nat) : Int) - ((1 : Nat) : Int) ∧
    ((0 : Int) = 0 → pendingAdd FinePc.returned = 0 →
      ([] : List Probe) = [] ∧ ([] : List Probe) = [] ∧ ([] : List Probe) = [])) := by
  have hrun : fineRun (fun _ => true)
      [none, none, none, some (.dialing, 0), none, some (.printing, 0), none,
        some (.exiting, 0), none]
      (fineStart (lit "10.0.0.1-10.0.0.1") (lit "80")) =
      ⟨.returned, 167772162, 167772161, [80], 0, 1, 1, [], [], [], [(lit "10.0.0.1", 80)],
        [(lit "10.0.0.1", 80)], [lit "Port 80 is open on 10.0.0.1"]⟩ := by decide
  have hreach := fineReachable_fineRun (fun _ => true)
    [none, none, none, some (.dialing, 0), none, some (.printing, 0), none,
      some (.exiting, 0), none] _ _
    (FineReachable.refl : FineReachable (fun _ => true)
      (fineStart (lit "10.0.0.1-10.0.0.1") (lit "80")) _)
  rw [hrun] at hreach
  exact ⟨hrun, full_barrier (fun _ => true) _ _ _ hreach⟩

end PortScanner
